import Mathlib

/-!
Verification development for the Matugenium repository: a shallow embedding of
the application-matching engine (`detect.py`), key normalization and removal
safety (`generate.py`), the profile state store (`state.py`) and the CLI
generation/removal flow (`cli.py`), together with proofs settling the frozen
claims about the specification.

Modelling conventions:
* Python strings are modelled by Lean `String` (`String.data : List Char`);
  character classification (`isalnum`, `lower`, whitespace) is modelled by the
  corresponding ASCII operations of `Char`.
* Python dictionaries (insertion ordered, unique string keys) are modelled by
  association lists `List (String × JVal)`.
* Filesystem paths are modelled as lists of components, already resolved
  (symlink/`..` resolution of `Path.resolve` is the identity on the model).
* `difflib.SequenceMatcher.ratio` is an external library routine; the matcher
  is parameterised over an arbitrary similarity function `sim` with rational
  values, and the comparison `< 0.45` is modelled exactly over `ℚ`.
-/

namespace Matugenium

/-! ### Generic list/string helpers (models of Python primitives) -/

/-- `listStarts p l` models Python `l.startswith(p)` on sequences:
`p` is a prefix of `l`. -/
def listStarts {α : Type} [DecidableEq α] : List α → List α → Bool
  | [], _ => true
  | _ :: _, [] => false
  | x :: xs, y :: ys => if x = y then listStarts xs ys else false

/-- `listSub n h` models the Python containment test `n in h` on sequences:
`n` occurs contiguously inside `h`. -/
def listSub {α : Type} [DecidableEq α] (needle : List α) : List α → Bool
  | [] => needle.isEmpty
  | c :: t => listStarts needle (c :: t) || listSub needle t

/-- Python `str.lower()` (ASCII model). -/
def pyLower (s : String) : String := ⟨s.data.map Char.toLower⟩

/-- Drop trailing elements satisfying `p` (helper for `strip`). -/
def dropTrail {α : Type} (p : α → Bool) : List α → List α
  | [] => []
  | c :: rest =>
      let r := dropTrail p rest
      if p c && r.isEmpty then [] else c :: r

/-- Python `str.strip()` (whitespace, ASCII model). -/
def pyStrip (s : String) : String :=
  ⟨(dropTrail Char.isWhitespace s.data).dropWhile Char.isWhitespace⟩

/-- Python `needle in hay` for strings. -/
def strSub (needle hay : String) : Bool := listSub needle.data hay.data

/-- Python `s.startswith(p)` for strings. -/
def strStarts (p s : String) : Bool := listStarts p.data s.data

/-! ### Character-level facts (ASCII `lower`/`isalnum`) -/

theorem char_toNat_ofNat_valid {n : Nat} (h : n.isValidChar) :
    (Char.ofNat n).toNat = n := by
  rw [Char.ofNat, dif_pos h]
  rfl

theorem toLower_toNat (c : Char) :
    c.toLower.toNat = if 65 ≤ c.toNat ∧ c.toNat ≤ 90 then c.toNat + 32 else c.toNat := by
  rw [Char.toLower]
  by_cases h : 65 ≤ c.toNat ∧ c.toNat ≤ 90
  · show (if c.toNat ≥ 65 ∧ c.toNat ≤ 90 then Char.ofNat (c.toNat + 32) else c).toNat = _
    rw [if_pos h, if_pos h]
    exact char_toNat_ofNat_valid (Or.inl (by omega))
  · show (if c.toNat ≥ 65 ∧ c.toNat ≤ 90 then Char.ofNat (c.toNat + 32) else c).toNat = _
    rw [if_neg h, if_neg h]

theorem isUpper_iff (c : Char) : c.isUpper = true ↔ 65 ≤ c.toNat ∧ c.toNat ≤ 90 := by
  simp only [Char.isUpper, Bool.and_eq_true, decide_eq_true_eq]
  constructor
  · rintro ⟨h1, h2⟩
    exact ⟨h1, h2⟩
  · rintro ⟨h1, h2⟩
    exact ⟨h1, h2⟩

theorem isLower_iff (c : Char) : c.isLower = true ↔ 97 ≤ c.toNat ∧ c.toNat ≤ 122 := by
  simp only [Char.isLower, Bool.and_eq_true, decide_eq_true_eq]
  constructor
  · rintro ⟨h1, h2⟩
    exact ⟨h1, h2⟩
  · rintro ⟨h1, h2⟩
    exact ⟨h1, h2⟩

theorem isDigit_iff (c : Char) : c.isDigit = true ↔ 48 ≤ c.toNat ∧ c.toNat ≤ 57 := by
  simp only [Char.isDigit, Bool.and_eq_true, decide_eq_true_eq]
  constructor
  · rintro ⟨h1, h2⟩
    exact ⟨h1, h2⟩
  · rintro ⟨h1, h2⟩
    exact ⟨h1, h2⟩

theorem isAlphanum_iff (c : Char) :
    c.isAlphanum = true ↔
      (65 ≤ c.toNat ∧ c.toNat ≤ 90) ∨ (97 ≤ c.toNat ∧ c.toNat ≤ 122) ∨
        (48 ≤ c.toNat ∧ c.toNat ≤ 57) := by
  simp only [Char.isAlphanum, Char.isAlpha, Bool.or_eq_true, isUpper_iff, isLower_iff,
    isDigit_iff]
  tauto

/-- Lowering preserves the (ASCII) alphanumeric class. -/
theorem isAlphanum_toLower (c : Char) : c.toLower.isAlphanum = c.isAlphanum := by
  rw [Bool.eq_iff_iff, isAlphanum_iff, isAlphanum_iff, toLower_toNat]
  by_cases h : 65 ≤ c.toNat ∧ c.toNat ≤ 90
  · rw [if_pos h]
    omega
  · rw [if_neg h]

/-- A character whose code is outside the upper-case range is fixed by `lower`. -/
theorem toLower_eq_self {c : Char} (h : ¬(65 ≤ c.toNat ∧ c.toNat ≤ 90)) :
    c.toLower = c := by
  rw [Char.toLower]
  exact if_neg h

/-- `lower` is idempotent (ASCII model). -/
theorem toLower_toLower (c : Char) : c.toLower.toLower = c.toLower := by
  apply toLower_eq_self
  rw [toLower_toNat]
  split <;> omega

/-- The lowercase image of an alphanumeric character is not a hyphen. -/
theorem toLower_ne_dash {c : Char} (h : c.isAlphanum = true) : c.toLower ≠ '-' := by
  intro he
  have h45 : c.toLower.toNat = 45 := by rw [he]; rfl
  rw [toLower_toNat] at h45
  rw [isAlphanum_iff] at h
  split at h45 <;> omega

theorem dash_not_alphanum : ('-').isAlphanum = false := by decide

/-! ### Key normalization (`generate.normalize_app_key`)

```python
def normalize_app_key(raw_name: str) -> str:
    key = "".join(char.lower() if char.isalnum() else "-" for char in raw_name).strip("-")
    while "--" in key:
        key = key.replace("--", "-")
    return key or "unknown-app"
```
-/

/-- The per-character map of the join: lowercased alphanumerics, hyphen otherwise. -/
def keyChar (c : Char) : Char := if c.isAlphanum then c.toLower else '-'

/-- Test for the hyphen character. -/
def isDash (c : Char) : Bool := c == '-'

/-- Python `str.strip("-")`: remove the maximal leading and trailing hyphen runs. -/
def stripDashes (l : List Char) : List Char :=
  (dropTrail isDash l).dropWhile isDash

/-- The pattern `"--"` searched by the while loop. -/
def dd : List Char := ['-', '-']

/-- One pass of Python `key.replace("--", "-")`: non-overlapping matches are
replaced left to right, scanning resumes after each replacement. -/
def replaceOnce : List Char → List Char
  | [] => []
  | [c] => [c]
  | c :: d :: rest =>
      if c = '-' ∧ d = '-' then '-' :: replaceOnce rest
      else c :: replaceOnce (d :: rest)

theorem replaceOnce_length_le (l : List Char) : (replaceOnce l).length ≤ l.length := by
  induction l using replaceOnce.induct with
  | case1 => simp [replaceOnce]
  | case2 c => simp [replaceOnce]
  | case3 c d rest h ih =>
      rw [replaceOnce, if_pos h]
      simp only [List.length_cons]
      omega
  | case4 c d rest h ih =>
      rw [replaceOnce, if_neg h]
      simp only [List.length_cons] at ih ⊢
      omega

theorem listStarts_dd_iff (c : Char) (t : List Char) :
    listStarts dd (c :: t) = true ↔ c = '-' ∧ t.head? = some '-' := by
  cases t with
  | nil =>
      simp only [dd, listStarts, List.head?_nil]
      constructor
      · intro h
        split at h <;> simp_all [listStarts]
      · rintro ⟨-, h⟩
        cases h
  | cons d u =>
      simp only [dd, listStarts, List.head?_cons, Option.some_inj]
      by_cases h1 : ('-' : Char) = c
      · subst h1
        by_cases h2 : ('-' : Char) = d
        · subst h2
          simp [listStarts]
        · rw [if_pos rfl, if_neg h2]
          simp only [Bool.false_eq_true, false_iff, not_and]
          intro _ hd
          exact h2 hd.symm
      · rw [if_neg h1]
        simp only [Bool.false_eq_true, false_iff, not_and]
        intro hc
        exact absurd hc.symm h1

theorem listSub_cons (n : List Char) (c : Char) (t : List Char) :
    listSub n (c :: t) = (listStarts n (c :: t) || listSub n t) := rfl

theorem listSub_dd_cons_false {c : Char} {t : List Char}
    (h : listSub dd (c :: t) = false) :
    listStarts dd (c :: t) = false ∧ listSub dd t = false := by
  rw [listSub_cons, Bool.or_eq_false_iff] at h
  exact h

theorem replaceOnce_length_lt {l : List Char} (h : listSub dd l = true) :
    (replaceOnce l).length < l.length := by
  induction l using replaceOnce.induct with
  | case1 => simp [listSub, dd] at h
  | case2 c =>
      rw [listSub_cons, Bool.or_eq_true] at h
      rcases h with h | h
      · rw [listStarts_dd_iff] at h
        simp at h
      · simp [listSub, dd] at h
  | case3 c d rest hcd ih =>
      rw [replaceOnce, if_pos hcd]
      have hle := replaceOnce_length_le rest
      simp only [List.length_cons]
      omega
  | case4 c d rest hcd ih =>
      rw [replaceOnce, if_neg hcd]
      have hsub : listSub dd (d :: rest) = true := by
        rw [listSub_cons, Bool.or_eq_true] at h
        rcases h with h | h
        · rw [listStarts_dd_iff] at h
          exact absurd ⟨h.1, by simpa using h.2⟩ hcd
        · exact h
      have hlt := ih hsub
      simp only [List.length_cons] at hlt ⊢
      omega

/-- The `while "--" in key` loop of `normalize_app_key`. -/
def collapseLoop (l : List Char) : List Char :=
  if h : listSub dd l = true then collapseLoop (replaceOnce l) else l
termination_by l.length
decreasing_by exact replaceOnce_length_lt h

/-- `generate.normalize_app_key`, translated from the source. -/
def normalize_app_key (raw : String) : String :=
  let key := collapseLoop (stripDashes (raw.data.map keyChar))
  if key.isEmpty then "unknown-app" else ⟨key⟩

/-- Dash-run collapse as a one-pass state machine; the flag records whether the
previous character belonged to a hyphen run whose hyphen is already emitted. -/
def dcGo : Bool → List Char → List Char
  | _, [] => []
  | b, c :: rest =>
      if c = '-' then
        if b then dcGo true rest else '-' :: dcGo true rest
      else c :: dcGo false rest

/-- Collapse of non-alphanumeric runs as the spec words it: each maximal run of
non-alphanumeric characters becomes one hyphen (state machine over the
lowercased text). -/
def crGo : Bool → List Char → List Char
  | _, [] => []
  | b, c :: rest =>
      if c.isAlphanum then c :: crGo false rest
      else if b then crGo true rest
      else '-' :: crGo true rest

/-- The key-normalization algorithm as described by the spec: lowercase,
collapse every run of non-alphanumeric characters to a single hyphen, strip
leading and trailing hyphens, map an empty result to the fallback key. -/
def normalizeKeySpec (raw : String) : String :=
  let key := stripDashes (crGo false (raw.data.map Char.toLower))
  if key.isEmpty then "unknown-app" else ⟨key⟩

theorem dcGo_cons (b : Bool) (c : Char) (rest : List Char) :
    dcGo b (c :: rest) =
      if c = '-' then (if b then dcGo true rest else '-' :: dcGo true rest)
      else c :: dcGo false rest := rfl

theorem crGo_cons (b : Bool) (c : Char) (rest : List Char) :
    crGo b (c :: rest) =
      if c.isAlphanum then c :: crGo false rest
      else if b then crGo true rest else '-' :: crGo true rest := rfl

theorem dcGo_replaceOnce (l : List Char) : ∀ b, dcGo b (replaceOnce l) = dcGo b l := by
  induction l using replaceOnce.induct with
  | case1 => intro b; rfl
  | case2 c => intro b; rfl
  | case3 c d rest h ih =>
      obtain ⟨rfl, rfl⟩ := h
      intro b
      rw [replaceOnce, if_pos ⟨rfl, rfl⟩]
      cases b <;> simp [dcGo_cons, ih]
  | case4 c d rest h ih =>
      intro b
      rw [replaceOnce, if_neg h, dcGo_cons, dcGo_cons]
      by_cases hc : c = '-' <;> cases b <;> simp [hc, ih]

theorem listStarts_dd_false (c : Char) (t : List Char) :
    listStarts dd (c :: t) = false ↔ ¬(c = '-' ∧ t.head? = some '-') := by
  rw [← listStarts_dd_iff c t]
  cases h : listStarts dd (c :: t) <;> simp

theorem noDD_dcGo_id {l : List Char} (h : listSub dd l = false) :
    dcGo false l = l ∧ (l.head? ≠ some '-' → dcGo true l = l) := by
  induction l with
  | nil => exact ⟨rfl, fun _ => rfl⟩
  | cons c rest ih =>
      obtain ⟨hs, ht⟩ := listSub_dd_cons_false h
      obtain ⟨ih1, ih2⟩ := ih ht
      constructor
      · rw [dcGo_cons]
        by_cases hc : c = '-'
        · subst hc
          rw [if_pos rfl, if_neg Bool.false_ne_true]
          have hhd : rest.head? ≠ some '-' := fun hd =>
            (listStarts_dd_false _ rest).mp hs ⟨rfl, hd⟩
          rw [ih2 hhd]
        · rw [if_neg hc, ih1]
      · intro hhd
        rw [dcGo_cons]
        have hc : c ≠ '-' := fun e => hhd (by rw [List.head?_cons, e])
        rw [if_neg hc, ih1]

theorem collapseLoop_eq_dcGo (l : List Char) : collapseLoop l = dcGo false l := by
  induction l using collapseLoop.induct with
  | case1 l hdd ih =>
      rw [collapseLoop, dif_pos hdd, ih, dcGo_replaceOnce]
  | case2 l hdd =>
      have hdd' : listSub dd l = false := by simpa using hdd
      rw [collapseLoop, dif_neg hdd]
      exact ((noDD_dcGo_id hdd').1).symm

theorem crGo_map_toLower (l : List Char) : ∀ b,
    crGo b (l.map Char.toLower) = dcGo b (l.map keyChar) := by
  induction l with
  | nil => intro b; rfl
  | cons c rest ih =>
      intro b
      rw [List.map_cons, List.map_cons, crGo_cons, dcGo_cons]
      rcases ha : c.isAlphanum with _ | _
      · have ha2 : c.toLower.isAlphanum = false := by rw [isAlphanum_toLower]; exact ha
        rw [if_neg (by simp [ha2])]
        simp only [keyChar, ha, Bool.false_eq_true, if_false]
        cases b <;> simp [ih]
      · have ha2 : c.toLower.isAlphanum = true := by rw [isAlphanum_toLower]; exact ha
        rw [if_pos ha2]
        simp only [keyChar, ha, if_true]
        rw [if_neg (toLower_ne_dash ha), ih]

theorem dropWhile_isDash_dcGo_true (t : List Char) :
    (dcGo true t).dropWhile isDash = (dcGo false t).dropWhile isDash := by
  cases t with
  | nil => rfl
  | cons c rest =>
      rw [dcGo_cons, dcGo_cons]
      by_cases hc : c = '-'
      · subst hc
        rw [if_pos rfl, if_pos rfl, if_pos rfl, if_neg Bool.false_ne_true]
        rw [List.dropWhile_cons, if_pos (by rfl : isDash '-' = true)]
      · rw [if_neg hc, if_neg hc]

theorem dcGo_dropWhile (x : List Char) :
    dcGo false (x.dropWhile isDash) = (dcGo false x).dropWhile isDash := by
  induction x with
  | nil => rfl
  | cons c t ih =>
      rw [List.dropWhile_cons]
      by_cases hc : c = '-'
      · subst hc
        rw [if_pos (by rfl : isDash '-' = true), ih]
        rw [dcGo_cons, if_pos rfl, if_neg Bool.false_ne_true]
        rw [List.dropWhile_cons, if_pos (by rfl : isDash '-' = true)]
        exact (dropWhile_isDash_dcGo_true t).symm
      · have hd : isDash c = false := by simp [isDash, hc]
        rw [if_neg (by simp [hd])]
        rw [dcGo_cons, if_neg hc, List.dropWhile_cons, if_neg (by simp [hd])]

theorem dropTrail_eq_nil_iff {α : Type} {p : α → Bool} {l : List α} :
    dropTrail p l = [] ↔ l.all p = true := by
  induction l with
  | nil => simp [dropTrail]
  | cons c t ih =>
      rw [dropTrail, List.all_cons]
      by_cases hp : p c = true
      · by_cases ht : dropTrail p t = []
        · simp [hp, ht, ih.mp ht]
        · have hne : (dropTrail p t).isEmpty = false := by
            simpa [List.isEmpty_iff] using ht
          simp only [hp, hne, Bool.and_false, Bool.false_eq_true, if_false, Bool.true_and]
          constructor
          · intro h
            cases h
          · intro h
            exact absurd (ih.mpr h) ht
      · have hp' : p c = false := by simpa using hp
        simp only [hp', Bool.false_and, Bool.false_eq_true, if_false]
        constructor
        · intro h
          cases h
        · intro h
          cases h

theorem dcGo_true_eq_nil {l : List Char} (h : l.all isDash = true) :
    dcGo true l = [] := by
  induction l with
  | nil => rfl
  | cons c t ih =>
      rw [List.all_cons, Bool.and_eq_true] at h
      have hc : c = '-' := by simpa [isDash] using h.1
      subst hc
      rw [dcGo_cons, if_pos rfl, if_pos rfl]
      exact ih h.2

theorem all_isDash_dcGo_true (t : List Char) :
    (dcGo true t).all isDash = t.all isDash := by
  induction t with
  | nil => rfl
  | cons c r ih =>
      rw [dcGo_cons]
      by_cases hc : c = '-'
      · subst hc
        rw [if_pos rfl, if_pos rfl, ih, List.all_cons]
        simp [isDash]
      · have hd : isDash c = false := by simp [isDash, hc]
        rw [if_neg hc, List.all_cons, List.all_cons, hd]
        simp

theorem dcGo_dropTrail (x : List Char) :
    dcGo false (dropTrail isDash x) = dropTrail isDash (dcGo false x) ∧
    dcGo true (dropTrail isDash x) = dropTrail isDash (dcGo true x) := by
  induction x with
  | nil => exact ⟨rfl, rfl⟩
  | cons c t ih =>
      obtain ⟨ihA, ihB⟩ := ih
      by_cases hc : c = '-'
      · subst hc
        by_cases hall : dropTrail isDash t = []
        · have hallT : t.all isDash = true := dropTrail_eq_nil_iff.mp hall
          have h1 : dropTrail isDash ('-' :: t) = [] := by
            rw [dropTrail]
            simp [hall, isDash]
          constructor
          · rw [h1, dcGo_cons, if_pos rfl, if_neg Bool.false_ne_true,
              dcGo_true_eq_nil hallT]
            simp [dropTrail, isDash, dcGo]
          · rw [h1, dcGo_cons, if_pos rfl, if_pos rfl, dcGo_true_eq_nil hallT]
            simp [dropTrail, dcGo]
        · have hne : (dropTrail isDash t).isEmpty = false := by
            simpa [List.isEmpty_iff] using hall
          have h2 : dropTrail isDash ('-' :: t) = '-' :: dropTrail isDash t := by
            rw [dropTrail]
            simp [hne]
          have hne2 : dropTrail isDash (dcGo true t) ≠ [] := by
            rw [Ne, dropTrail_eq_nil_iff, all_isDash_dcGo_true]
            intro hall2
            exact hall (dropTrail_eq_nil_iff.mpr hall2)
          have hne2' : (dropTrail isDash (dcGo true t)).isEmpty = false := by
            simpa [List.isEmpty_iff] using hne2
          constructor
          · rw [h2, dcGo_cons, if_pos rfl, if_neg Bool.false_ne_true, ihB,
              dcGo_cons, if_pos rfl, if_neg Bool.false_ne_true, dropTrail]
            simp [hne2']
          · rw [h2, dcGo_cons, if_pos rfl, if_pos rfl, ihB,
              dcGo_cons, if_pos rfl, if_pos rfl]
      · have hd : isDash c = false := by simp [isDash, hc]
        have h3 : dropTrail isDash (c :: t) = c :: dropTrail isDash t := by
          rw [dropTrail]
          simp [hd]
        constructor
        · rw [h3, dcGo_cons, if_neg hc, ihA, dcGo_cons, if_neg hc, dropTrail]
          simp [hd]
        · rw [h3, dcGo_cons, if_neg hc, ihA, dcGo_cons, if_neg hc, dropTrail]
          simp [hd]

theorem dcGo_stripDashes (x : List Char) :
    dcGo false (stripDashes x) = stripDashes (dcGo false x) := by
  rw [stripDashes, stripDashes, dcGo_dropWhile, (dcGo_dropTrail x).1]

/-- `normalize_app_key` computes exactly the spec-described normalization. -/
theorem normKey_eq_spec (raw : String) : normalize_app_key raw = normalizeKeySpec raw := by
  rw [normalize_app_key, normalizeKeySpec]
  have h : collapseLoop (stripDashes (raw.data.map keyChar))
      = stripDashes (crGo false (raw.data.map Char.toLower)) := by
    rw [collapseLoop_eq_dcGo, dcGo_stripDashes, crGo_map_toLower]
  rw [h]

theorem noDD_crGo (l : List Char) :
    listSub dd (crGo false l) = false ∧ listSub dd (crGo true l) = false ∧
      (crGo true l).head? ≠ some '-' := by
  induction l with
  | nil => refine ⟨rfl, rfl, ?_⟩; simp [crGo]
  | cons c rest ih =>
      obtain ⟨ih1, ih2, ih3⟩ := ih
      rcases ha : c.isAlphanum with _ | _
      · have hstarts : listStarts dd ('-' :: crGo true rest) = false :=
          (listStarts_dd_false _ _).mpr (fun hx => ih3 hx.2)
        refine ⟨?_, ?_, ?_⟩
        · rw [crGo_cons, if_neg (by simp [ha]), if_neg Bool.false_ne_true,
            listSub_cons, hstarts, ih2]
          rfl
        · rw [crGo_cons, if_neg (by simp [ha]), if_pos rfl]
          exact ih2
        · rw [crGo_cons, if_neg (by simp [ha]), if_pos rfl]
          exact ih3
      · have hc : c ≠ '-' := fun e => by
          rw [e] at ha
          exact absurd (dash_not_alphanum.symm.trans ha) (by simp)
        have hstarts : listStarts dd (c :: crGo false rest) = false :=
          (listStarts_dd_false _ _).mpr (fun hx => hc hx.1)
        refine ⟨?_, ?_, ?_⟩
        · rw [crGo_cons, if_pos ha, listSub_cons, hstarts, ih1]
          rfl
        · rw [crGo_cons, if_pos ha, listSub_cons, hstarts, ih1]
          rfl
        · rw [crGo_cons, if_pos ha, List.head?_cons]
          simp [hc]

theorem listSub_dropWhile_false {l : List Char} (h : listSub dd l = false) :
    listSub dd (l.dropWhile isDash) = false := by
  induction l with
  | nil => exact h
  | cons c t ih =>
      obtain ⟨-, ht⟩ := listSub_dd_cons_false h
      rw [List.dropWhile_cons]
      by_cases hc : isDash c = true
      · rw [if_pos hc]
        exact ih ht
      · rw [if_neg hc]
        exact h

theorem head?_dropTrail {α : Type} {p : α → Bool} {l : List α}
    (h : dropTrail p l ≠ []) : (dropTrail p l).head? = l.head? := by
  cases l with
  | nil => rfl
  | cons c t =>
      rw [dropTrail] at h ⊢
      by_cases hcond : (p c && (dropTrail p t).isEmpty) = true
      · exact absurd (by rw [if_pos hcond]) h
      · rw [if_neg hcond, List.head?_cons, List.head?_cons]

theorem listSub_dropTrail_false {l : List Char} (h : listSub dd l = false) :
    listSub dd (dropTrail isDash l) = false := by
  induction l with
  | nil => exact h
  | cons c t ih =>
      obtain ⟨hs, ht⟩ := listSub_dd_cons_false h
      rw [dropTrail]
      by_cases hcond : (isDash c && (dropTrail isDash t).isEmpty) = true
      · rw [if_pos hcond]
        rfl
      · rw [if_neg hcond]
        have hdt := ih ht
        have hstarts : listStarts dd (c :: dropTrail isDash t) = false := by
          rw [listStarts_dd_false]
          rintro ⟨rfl, hhd⟩
          by_cases hnil : dropTrail isDash t = []
          · rw [hnil] at hhd
            cases hhd
          · rw [head?_dropTrail hnil] at hhd
            exact (listStarts_dd_false _ _).mp hs ⟨rfl, hhd⟩
        rw [listSub_cons, hstarts, hdt]
        rfl

theorem listSub_stripDashes_false {l : List Char} (h : listSub dd l = false) :
    listSub dd (stripDashes l) = false :=
  listSub_dropWhile_false (listSub_dropTrail_false h)

theorem mem_crGo {c : Char} {b : Bool} {l : List Char} (h : c ∈ crGo b l) :
    (c ∈ l ∧ c.isAlphanum = true) ∨ c = '-' := by
  induction l generalizing b with
  | nil => cases h
  | cons d rest ih =>
      rw [crGo_cons] at h
      by_cases ha : d.isAlphanum = true
      · rw [if_pos ha] at h
        rcases List.mem_cons.mp h with rfl | h2
        · exact Or.inl ⟨List.mem_cons_self _ _, ha⟩
        · rcases ih h2 with ⟨hm, hal⟩ | hd
          · exact Or.inl ⟨List.mem_cons_of_mem _ hm, hal⟩
          · exact Or.inr hd
      · rw [if_neg ha] at h
        cases b with
        | true =>
            rw [if_pos rfl] at h
            rcases ih h with ⟨hm, hal⟩ | hd
            · exact Or.inl ⟨List.mem_cons_of_mem _ hm, hal⟩
            · exact Or.inr hd
        | false =>
            rw [if_neg Bool.false_ne_true] at h
            rcases List.mem_cons.mp h with rfl | h2
            · exact Or.inr rfl
            · rcases ih h2 with ⟨hm, hal⟩ | hd
              · exact Or.inl ⟨List.mem_cons_of_mem _ hm, hal⟩
              · exact Or.inr hd

theorem mem_dropWhile {α : Type} {c : α} {p : α → Bool} {l : List α}
    (h : c ∈ l.dropWhile p) : c ∈ l := by
  induction l with
  | nil => cases h
  | cons d t ih =>
      rw [List.dropWhile_cons] at h
      by_cases hd : p d = true
      · rw [if_pos hd] at h
        exact List.mem_cons_of_mem _ (ih h)
      · rw [if_neg hd] at h
        exact h

theorem mem_dropTrail {α : Type} {c : α} {p : α → Bool} {l : List α}
    (h : c ∈ dropTrail p l) : c ∈ l := by
  induction l with
  | nil => cases h
  | cons d t ih =>
      rw [dropTrail] at h
      by_cases hcond : (p d && (dropTrail p t).isEmpty) = true
      · rw [if_pos hcond] at h
        cases h
      · rw [if_neg hcond] at h
        rcases List.mem_cons.mp h with rfl | h2
        · exact List.mem_cons_self _ _
        · exact List.mem_cons_of_mem _ (ih h2)

theorem mem_stripDashes {c : Char} {l : List Char} (h : c ∈ stripDashes l) :
    c ∈ l :=
  mem_dropTrail (mem_dropWhile h)

theorem crGo_id {l : List Char}
    (hchar : ∀ c ∈ l, c.isAlphanum = true ∨ c = '-')
    (h : listSub dd l = false) :
    crGo false l = l ∧ (l.head? ≠ some '-' → crGo true l = l) := by
  induction l with
  | nil => exact ⟨rfl, fun _ => rfl⟩
  | cons c rest ih =>
      obtain ⟨hs, ht⟩ := listSub_dd_cons_false h
      have hchar' : ∀ d ∈ rest, d.isAlphanum = true ∨ d = '-' :=
        fun d hd => hchar d (List.mem_cons_of_mem _ hd)
      obtain ⟨ih1, ih2⟩ := ih hchar' ht
      rcases hchar c (List.mem_cons_self _ _) with ha | rfl
      · constructor
        · rw [crGo_cons, if_pos ha, ih1]
        · intro _
          rw [crGo_cons, if_pos ha, ih1]
      · have ha : ('-').isAlphanum = true → False := by
          rw [dash_not_alphanum]
          simp
        constructor
        · rw [crGo_cons, if_neg ha, if_neg Bool.false_ne_true]
          have hhd : rest.head? ≠ some '-' := fun hd =>
            (listStarts_dd_false _ rest).mp hs ⟨rfl, hd⟩
          rw [ih2 hhd]
        · intro hhd
          exact absurd rfl hhd

theorem dropWhile_idem {α : Type} (p : α → Bool) (l : List α) :
    (l.dropWhile p).dropWhile p = l.dropWhile p := by
  induction l with
  | nil => rfl
  | cons c t ih =>
      rw [List.dropWhile_cons]
      by_cases hc : p c = true
      · rw [if_pos hc]
        exact ih
      · rw [if_neg hc, List.dropWhile_cons, if_neg hc]

theorem dropTrail_idem {α : Type} (p : α → Bool) (l : List α) :
    dropTrail p (dropTrail p l) = dropTrail p l := by
  induction l with
  | nil => rfl
  | cons c t ih =>
      rw [dropTrail]
      by_cases hcond : (p c && (dropTrail p t).isEmpty) = true
      · rw [if_pos hcond]
        rfl
      · rw [if_neg hcond, dropTrail, ih]
        rw [if_neg hcond]

theorem dropTrail_dropWhile_comm {α : Type} (p : α → Bool) (l : List α) :
    dropTrail p (l.dropWhile p) = (dropTrail p l).dropWhile p := by
  induction l with
  | nil => rfl
  | cons c t ih =>
      rw [List.dropWhile_cons]
      by_cases hc : p c = true
      · rw [if_pos hc, ih, dropTrail]
        by_cases hnil : dropTrail p t = []
        · rw [if_pos (by rw [hc, hnil]; rfl), hnil]
        · have hne : (dropTrail p t).isEmpty = false := by
            simpa [List.isEmpty_iff] using hnil
          rw [if_neg (by rw [hc, hne]; simp), List.dropWhile_cons, if_pos hc]
      · rw [if_neg hc, dropTrail]
        have hc' : p c = false := by simpa using hc
        rw [if_neg (by rw [hc']; simp), List.dropWhile_cons, if_neg hc]

theorem stripDashes_idem (l : List Char) :
    stripDashes (stripDashes l) = stripDashes l := by
  rw [stripDashes, stripDashes, dropTrail_dropWhile_comm, dropTrail_idem,
    dropWhile_idem]

theorem map_id_of {α : Type} {f : α → α} {l : List α}
    (h : ∀ c ∈ l, f c = c) : l.map f = l := by
  induction l with
  | nil => rfl
  | cons c t ih =>
      rw [List.map_cons, h c (List.mem_cons_self _ _),
        ih (fun d hd => h d (List.mem_cons_of_mem _ hd))]

theorem normSpec_unknown : normalizeKeySpec "unknown-app" = "unknown-app" := by
  decide

/-- The spec-described normalization is idempotent. -/
theorem normKeySpec_idem (raw : String) :
    normalizeKeySpec (normalizeKeySpec raw) = normalizeKeySpec raw := by
  by_cases hempty :
      (stripDashes (crGo false (raw.data.map Char.toLower))).isEmpty = true
  · have hval : normalizeKeySpec raw = "unknown-app" := by
      rw [normalizeKeySpec, if_pos hempty]
    rw [hval]
    exact normSpec_unknown
  · have hval : normalizeKeySpec raw
        = ⟨stripDashes (crGo false (raw.data.map Char.toLower))⟩ := by
      rw [normalizeKeySpec, if_neg hempty]
    set out := stripDashes (crGo false (raw.data.map Char.toLower)) with hout
    have hmem : ∀ c ∈ out, (c.isAlphanum = true ∨ c = '-') ∧ c.toLower = c := by
      intro c hc
      rcases mem_crGo (mem_stripDashes hc) with ⟨hm, hal⟩ | rfl
      · refine ⟨Or.inl hal, ?_⟩
        rcases List.mem_map.mp hm with ⟨d, -, rfl⟩
        exact toLower_toLower d
      · exact ⟨Or.inr rfl, by decide⟩
    have hdd : listSub dd out = false :=
      listSub_stripDashes_false (noDD_crGo _).1
    have hmap : out.map Char.toLower = out :=
      map_id_of (fun c hc => (hmem c hc).2)
    have hcr : crGo false out = out :=
      (crGo_id (fun c hc => (hmem c hc).1) hdd).1
    have hstrip : stripDashes out = out := by
      rw [hout, stripDashes_idem]
    rw [hval, normalizeKeySpec]
    show (if (stripDashes (crGo false (out.map Char.toLower))).isEmpty = true
        then "unknown-app" else _) = _
    rw [hmap, hcr, hstrip, if_neg hempty]

/-- `normalize_app_key` is idempotent. -/
theorem normKey_idem (raw : String) :
    normalize_app_key (normalize_app_key raw) = normalize_app_key raw := by
  rw [normKey_eq_spec, normKey_eq_spec, normKeySpec_idem, ← normKey_eq_spec]

/-! ### Application entries and the matcher (`detect.py`) -/

/-- `detect.AppEntry`. -/
structure AppEntry where
  desktop_id : String
  name : String
  generic_name : String
  icon : String
  exec_cmd : String
  desktop_file : String
  keywords : List String
deriving Repr, DecidableEq

/-- Python `s.split(sep)` on character lists (keeps empty parts). -/
def splitOnList {α : Type} [DecidableEq α] (sep : α) : List α → List (List α)
  | [] => [[]]
  | c :: t =>
      let rest := splitOnList sep t
      if c = sep then [] :: rest
      else
        match rest with
        | [] => [[c]]
        | r :: rs => (c :: r) :: rs

/-- `pathlib.Path(s).name`: the last nonempty path component. -/
def pathName (s : String) : String :=
  ⟨((splitOnList '/' s.data).filter (fun part => !part.isEmpty)).getLastD []⟩

/-- `pathlib.Path(s).stem`: the final component without its last suffix. -/
def pathStem (s : String) : String :=
  let n := (pathName s).data
  if '.' ∈ n then
    let sfx := (n.reverse.takeWhile (fun c => c ≠ '.')).length
    let i := n.length - 1 - sfx
    if 0 < i ∧ i < n.length - 1 then ⟨n.take i⟩ else ⟨n⟩
  else ⟨n⟩

/-- `AppEntry.aliases`: identity, identity stem, names, icon and keywords,
deduplicated with empties dropped. Python builds a `set` whose iteration
order is unspecified; an insertion-ordered dedup is used here, and no result
of `match_app` depends on the order (only `any`/`max` are taken over it). -/
def AppEntry.aliases (a : AppEntry) : List String :=
  (([a.desktop_id, pathStem a.desktop_id, a.name, a.generic_name, a.icon]
      ++ a.keywords).dedup).filter (fun s => s ≠ "")

/-- The `ValueError` family raised by `match_app` (plus the two failures that
are impossible on well-formed input: an empty `max()` and the failed
`assert`). -/
inductive MatchError where
  | emptyName
  | noApps
  | noExactMatch
  | noLikelyMatch
  | emptyAliases
  | internalAssert
deriving Repr, DecidableEq

/-- Best similarity of the query against the lowered aliases of one entry;
`none` models the `ValueError` of `max` over an empty sequence. -/
def bestAliasScore (sim : String → String → ℚ) (q : String) (a : AppEntry) :
    Option ℚ :=
  match a.aliases.map (fun al => sim q (pyLower al)) with
  | [] => none
  | x :: xs => some (xs.foldl max x)

/-- The defaulted best score (coincides with `bestAliasScore` whenever the
entry has at least one alias). -/
def bestScoreD (sim : String → String → ℚ) (q : String) (a : AppEntry) : ℚ :=
  (bestAliasScore sim q a).getD 0

/-- The scanning loop of the fuzzy stage: a strictly greater score replaces
the current best, so ties keep the earlier candidate. -/
def runBest (sim : String → String → ℚ) (q : String) :
    (ℚ × AppEntry) → List AppEntry → (ℚ × AppEntry)
  | be, [] => be
  | be, a :: rest =>
      if be.1 < bestScoreD sim q a then runBest sim q (bestScoreD sim q a, a) rest
      else runBest sim q be rest

/-- The `for app in app_list` loop computing `best`. -/
def fuzzyBest (sim : String → String → ℚ) (q : String) :
    List AppEntry → Option (ℚ × AppEntry) →
      Except MatchError (Option (ℚ × AppEntry))
  | [], best => .ok best
  | a :: rest, best =>
      match bestAliasScore sim q a with
      | none => .error .emptyAliases
      | some score =>
          match best with
          | none => fuzzyBest sim q rest (some (score, a))
          | some (b, e) =>
              if b < score then fuzzyBest sim q rest (some (score, a))
              else fuzzyBest sim q rest (some (b, e))

/-- The fuzzy ranking stage of `match_app` (fixed threshold `0.45`). -/
def fuzzyStage (sim : String → String → ℚ) (q : String)
    (pool : List AppEntry) : Except MatchError AppEntry :=
  match fuzzyBest sim q pool none with
  | .error e => .error e
  | .ok none => .error .internalAssert
  | .ok (some (score, a)) =>
      if score < 45 / 100 then .error .noLikelyMatch else .ok a

/-- Membership test for the containment set of `match_app`. -/
def containsPred (q : String) (a : AppEntry) : Bool :=
  (a.aliases.map pyLower).any (fun al => strSub q al || strSub al q)

/-- The `contains` list of `match_app`. -/
def containsSet (q : String) (apps : List AppEntry) : List AppEntry :=
  apps.filter (containsPred q)

/-- The candidate pool handed to the fuzzy stage
(`if contains: app_list = contains`). -/
def fuzzyPool (q : String) (apps : List AppEntry) : List AppEntry :=
  if (containsSet q apps).isEmpty then apps else containsSet q apps

/-- `detect.match_app`, parameterised over the similarity ratio `sim`
(`difflib.SequenceMatcher(None, a, b).ratio()` in the source). -/
def match_app (sim : String → String → ℚ) (app_name : String)
    (apps : List AppEntry) (exact : Bool) : Except MatchError AppEntry :=
  let q := pyLower (pyStrip app_name)
  if q = "" then .error .emptyName
  else if apps.isEmpty then .error .noApps
  else if exact then
    match apps.find? (fun a => a.aliases.any (fun al => pyLower al = q)) with
    | some a => .ok a
    | none => .error .noExactMatch
  else
    match containsSet q apps with
    | [c] => .ok c
    | _ => fuzzyStage sim q (fuzzyPool q apps)

/-- Reference argmax: the first candidate attaining the maximal best score. -/
def firstMax (sim : String → String → ℚ) (q : String) :
    List AppEntry → Option (ℚ × AppEntry)
  | [] => none
  | a :: rest =>
      match firstMax sim q rest with
      | none => some (bestScoreD sim q a, a)
      | some (m, w) =>
          if m > bestScoreD sim q a then some (m, w)
          else some (bestScoreD sim q a, a)

/-- Fold one accumulated best into an optional later best. -/
def combineBest (be : ℚ × AppEntry) : Option (ℚ × AppEntry) → (ℚ × AppEntry)
  | none => be
  | some mw => if be.1 < mw.1 then mw else be

theorem bestAliasScore_eq {sim : String → String → ℚ} {q : String}
    {a : AppEntry} (h : a.aliases ≠ []) :
    bestAliasScore sim q a = some (bestScoreD sim q a) := by
  rw [bestScoreD]
  cases hl : a.aliases with
  | nil => exact absurd hl h
  | cons x xs =>
      rw [bestAliasScore, hl, List.map_cons]
      rfl

theorem firstMax_cons_eq_combine (sim : String → String → ℚ) (q : String)
    (a : AppEntry) (rest : List AppEntry) :
    firstMax sim q (a :: rest)
      = some (combineBest (bestScoreD sim q a, a) (firstMax sim q rest)) := by
  rw [firstMax]
  cases hfm : firstMax sim q rest with
  | none => rfl
  | some mw =>
      obtain ⟨m, w⟩ := mw
      simp only [combineBest, gt_iff_lt]
      dsimp only
      by_cases hgt : bestScoreD sim q a < m
      · rw [if_pos hgt, if_pos hgt]
      · rw [if_neg hgt, if_neg hgt]

theorem runBest_eq_combine (sim : String → String → ℚ) (q : String) :
    ∀ (l : List AppEntry) (be : ℚ × AppEntry),
      runBest sim q be l = combineBest be (firstMax sim q l) := by
  intro l
  induction l with
  | nil => intro be; rfl
  | cons a rest ih =>
      intro be
      rw [runBest, firstMax_cons_eq_combine, ih, ih]
      cases hfm : firstMax sim q rest with
      | none =>
          simp only [combineBest]
      | some mw =>
          obtain ⟨m, w⟩ := mw
          simp only [combineBest, gt_iff_lt]
          dsimp only
          by_cases hsm : bestScoreD sim q a < m
          · rw [if_pos hsm]
            dsimp only
            split_ifs <;> first | rfl | linarith
          · rw [if_neg hsm]
            dsimp only
            split_ifs <;> first | rfl | linarith

theorem withbot_max_bot (x : ℚ) :
    max (x : WithBot ℚ) ⊥ = (x : WithBot ℚ) :=
  max_eq_left bot_le

theorem withbot_max_some (x y : ℚ) :
    max (x : WithBot ℚ) (some y) = some (max x y) := by
  have h : (some y : WithBot ℚ) = (y : WithBot ℚ) := rfl
  rw [h, ← WithBot.coe_max]
  rfl

theorem firstMax_char (sim : String → String → ℚ) (q : String) :
    ∀ (l : List AppEntry), l ≠ [] →
      ∃ m w, firstMax sim q l = some (m, w) ∧
        (l.map (bestScoreD sim q)).maximum = some m ∧
        l.find? (fun a => decide (bestScoreD sim q a = m)) = some w := by
  intro l
  induction l with
  | nil => intro h; exact absurd rfl h
  | cons a rest ih =>
      intro _
      by_cases hr : rest = []
      · subst hr
        refine ⟨bestScoreD sim q a, a, rfl, ?_, ?_⟩
        · rw [List.map_cons, List.map_nil, List.maximum_cons, List.maximum_nil,
            withbot_max_bot]
          rfl
        · exact List.find?_cons_of_pos _ (by simp)
      · obtain ⟨m, w, h1, h2, h3⟩ := ih hr
        by_cases hgt : bestScoreD sim q a < m
        · refine ⟨m, w, ?_, ?_, ?_⟩
          · rw [firstMax_cons_eq_combine, h1]
            simp only [combineBest, gt_iff_lt]
            dsimp only
            rw [if_pos hgt]
          · rw [List.map_cons, List.maximum_cons, h2, withbot_max_some,
              max_eq_right (le_of_lt hgt)]
          · rw [List.find?_cons_of_neg _
              (by simp only [decide_eq_true_eq]; exact ne_of_lt hgt), h3]
        · refine ⟨bestScoreD sim q a, a, ?_, ?_, ?_⟩
          · rw [firstMax_cons_eq_combine, h1]
            simp only [combineBest, gt_iff_lt]
            dsimp only
            rw [if_neg hgt]
          · rw [List.map_cons, List.maximum_cons, h2, withbot_max_some,
              max_eq_left (not_lt.mp hgt)]
          · exact List.find?_cons_of_pos _ (by simp)

theorem fuzzyBest_some (sim : String → String → ℚ) (q : String) :
    ∀ (l : List AppEntry) (be : ℚ × AppEntry), (∀ a ∈ l, a.aliases ≠ []) →
      fuzzyBest sim q l (some be) = .ok (some (runBest sim q be l)) := by
  intro l
  induction l with
  | nil => intro be _; rfl
  | cons a rest ih =>
      intro be hal
      have hb := @bestAliasScore_eq sim q a (hal a (List.mem_cons_self _ _))
      have hrest : ∀ x ∈ rest, x.aliases ≠ [] :=
        fun x hx => hal x (List.mem_cons_of_mem _ hx)
      have hstep : fuzzyBest sim q (a :: rest) (some be)
          = if be.1 < bestScoreD sim q a then
              fuzzyBest sim q rest (some (bestScoreD sim q a, a))
            else fuzzyBest sim q rest (some be) := by
        rw [fuzzyBest, hb]
      rw [hstep, runBest]
      by_cases hlt : be.1 < bestScoreD sim q a
      · rw [if_pos hlt, if_pos hlt, ih _ hrest]
      · rw [if_neg hlt, if_neg hlt, ih _ hrest]

theorem fuzzyBest_none (sim : String → String → ℚ) (q : String)
    (pool : List AppEntry) (hal : ∀ a ∈ pool, a.aliases ≠ []) :
    fuzzyBest sim q pool none = .ok (firstMax sim q pool) := by
  cases pool with
  | nil => rfl
  | cons a rest =>
      have hb := @bestAliasScore_eq sim q a (hal a (List.mem_cons_self _ _))
      have hrest : ∀ x ∈ rest, x.aliases ≠ [] :=
        fun x hx => hal x (List.mem_cons_of_mem _ hx)
      have hstep : fuzzyBest sim q (a :: rest) none
          = fuzzyBest sim q rest (some (bestScoreD sim q a, a)) := by
        rw [fuzzyBest, hb]
      rw [hstep, fuzzyBest_some sim q rest _ hrest, runBest_eq_combine,
        firstMax_cons_eq_combine]

/-- Full characterisation of the fuzzy stage: it selects the first candidate
attaining the maximal best-alias score and compares it with `0.45`. -/
theorem fuzzyStage_spec (sim : String → String → ℚ) (q : String)
    (pool : List AppEntry) (hne : pool ≠ [])
    (hal : ∀ a ∈ pool, a.aliases ≠ []) :
    ∃ m w, (pool.map (bestScoreD sim q)).maximum = some m ∧
      pool.find? (fun a => decide (bestScoreD sim q a = m)) = some w ∧
      fuzzyStage sim q pool
        = (if m < 45 / 100 then .error .noLikelyMatch else .ok w) := by
  obtain ⟨m, w, h1, h2, h3⟩ := firstMax_char sim q pool hne
  refine ⟨m, w, h2, h3, ?_⟩
  rw [fuzzyStage, fuzzyBest_none sim q pool hal, h1]

/-! ### JSON values and the state store (`state.py`) -/

/-- JSON values (the Python objects produced by `json.loads`); objects are
insertion-ordered association lists whose keys are unique. -/
inductive JVal where
  | null
  | bool (b : Bool)
  | num (n : Int)
  | str (s : String)
  | arr (xs : List JVal)
  | obj (fields : List (String × JVal))

/-- Python truthiness of a JSON value (used by `if existing:`). -/
def JVal.truthy : JVal → Bool
  | .null => false
  | .bool b => b
  | .num n => n != 0
  | .str s => !s.isEmpty
  | .arr xs => !xs.isEmpty
  | .obj fields => !fields.isEmpty

/-- Is the value a dict (`isinstance(v, dict)`)? -/
def JVal.isObj : JVal → Bool
  | .obj _ => true
  | _ => false

/-- Dictionary lookup `d.get(k)` (first binding wins; real dicts are unique). -/
def jLookup : List (String × JVal) → String → Option JVal
  | [], _ => none
  | (k, v) :: rest, q => if k = q then some v else jLookup rest q

/-- Key-membership test `k in d`. -/
def jMember (m : List (String × JVal)) (k : String) : Bool :=
  (jLookup m k).isSome

/-- Dictionary assignment `d[k] = v`: replaces in place, appends when new. -/
def jSet (m : List (String × JVal)) (k : String) (v : JVal) :
    List (String × JVal) :=
  if jMember m k then m.map (fun p => if p.1 = k then (k, v) else p)
  else m ++ [(k, v)]

/-- `d.setdefault(k, v)`. -/
def jSetdefault (m : List (String × JVal)) (k : String) (v : JVal) :
    List (String × JVal) :=
  if jMember m k then m else m ++ [(k, v)]

/-- `d.pop(k, None)` on the binding list: removes the binding of `k`
(unique keys make removing all bindings the same as removing the one). -/
def jRemove (m : List (String × JVal)) (k : String) : List (String × JVal) :=
  m.filter (fun p => p.1 ≠ k)

/-- The on-disk state document as `StateStore.load` can encounter it. -/
inductive Disk where
  | missing
  | unreadable
  | corrupt
  | stored (v : JVal)

namespace StateStore

/-- The fresh empty document substituted for missing or corrupt state. -/
def emptyState : List (String × JVal) := [("profiles", JVal.obj [])]

/-- `StateStore.load`: missing file, unreadable file, JSON decode error and
non-object documents all yield a fresh empty document; an object document is
returned with `profiles` defaulted in. -/
def load : Disk → List (String × JVal)
  | .missing => emptyState
  | .unreadable => emptyState
  | .corrupt => emptyState
  | .stored (.obj fields) => jSetdefault fields "profiles" (JVal.obj [])
  | .stored _ => emptyState

/-- `StateStore.save`: serialise and atomically replace the state file
(the `sort_keys` serialisation order is not modelled; the document keeps its
field list). -/
def save (data : List (String × JVal)) : Disk := .stored (.obj data)

/-- The `profiles` mapping of the loaded document, when it is a dict
(`none` models the `TypeError`/`AttributeError` raised further down when the
stored `profiles` value is not a dict). -/
def profilesOf (disk : Disk) : Option (List (String × JVal)) :=
  match jLookup (jSetdefault (load disk) "profiles" (JVal.obj [])) "profiles" with
  | some (.obj ps) => some ps
  | _ => none

/-- `StateStore.record_profile`. -/
def record_profile (disk : Disk) (app_key : String) (record : JVal) :
    Option Disk :=
  let st := jSetdefault (load disk) "profiles" (JVal.obj [])
  match jLookup st "profiles" with
  | some (.obj ps) =>
      some (save (jSet st "profiles" (JVal.obj (jSet ps app_key record))))
  | _ => none

/-- `StateStore.remove_profile`: the popped record and the new disk state. -/
def remove_profile (disk : Disk) (app_key : String) :
    Option (Option JVal × Disk) :=
  let st := jSetdefault (load disk) "profiles" (JVal.obj [])
  match jLookup st "profiles" with
  | some (.obj ps) =>
      some (jLookup ps app_key,
        save (jSet st "profiles" (JVal.obj (jRemove ps app_key))))
  | _ => none

/-- `StateStore.all_profiles` (a snapshot copy; performs no save). -/
def all_profiles (disk : Disk) : Option (List (String × JVal)) :=
  profilesOf disk

/-- `StateStore.get_profile`: a copy of the record when it is a dict,
otherwise `None`. -/
def get_profile (disk : Disk) (app_key : String) : Option (Option JVal) :=
  match profilesOf disk with
  | some ps =>
      match jLookup ps app_key with
      | some (.obj fields) => some (some (.obj fields))
      | _ => some none
  | none => none

end StateStore

theorem jLookup_append (m m' : List (String × JVal)) (k : String) :
    jLookup (m ++ m') k
      = (match jLookup m k with
          | some v => some v
          | none => jLookup m' k) := by
  induction m with
  | nil => rfl
  | cons p rest ih =>
      obtain ⟨k0, v0⟩ := p
      rw [List.cons_append, jLookup, jLookup]
      by_cases hk : k0 = k
      · rw [if_pos hk, if_pos hk]
      · rw [if_neg hk, if_neg hk, ih]

theorem jLookup_map_set {m : List (String × JVal)} {k : String} (v : JVal)
    (h : jMember m k = true) :
    jLookup (m.map (fun p => if p.1 = k then (k, v) else p)) k = some v := by
  induction m with
  | nil => cases h
  | cons p rest ih =>
      obtain ⟨k0, v0⟩ := p
      rw [List.map_cons]
      by_cases hk : k0 = k
      · rw [if_pos hk, jLookup, if_pos rfl]
      · rw [if_neg hk, jLookup, if_neg hk]
        rw [jMember, jLookup, if_neg hk] at h
        exact ih h

theorem jLookup_jSet_self (m : List (String × JVal)) (k : String) (v : JVal) :
    jLookup (jSet m k v) k = some v := by
  rw [jSet]
  by_cases h : jMember m k = true
  · rw [if_pos h]
    exact jLookup_map_set v h
  · rw [if_neg h, jLookup_append]
    have hnone : jLookup m k = none := by
      rw [jMember] at h
      cases hl : jLookup m k with
      | none => rfl
      | some v0 => rw [hl] at h; exact absurd rfl h
    rw [hnone, jLookup, if_pos rfl]

theorem jMember_jSet_self (m : List (String × JVal)) (k : String) (v : JVal) :
    jMember (jSet m k v) k = true := by
  rw [jMember, jLookup_jSet_self]
  rfl

theorem jLookup_jRemove_self (m : List (String × JVal)) (k : String) :
    jLookup (jRemove m k) k = none := by
  induction m with
  | nil => rfl
  | cons p rest ih =>
      obtain ⟨k0, v0⟩ := p
      rw [jRemove, List.filter_cons]
      by_cases hk : k0 = k
      · rw [if_neg (by simp [hk])]
        exact ih
      · rw [if_pos (by simp [hk]), jLookup, if_neg hk]
        exact ih

theorem jSetdefault_of_member {m : List (String × JVal)} {k : String}
    (v : JVal) (h : jMember m k = true) : jSetdefault m k v = m := by
  rw [jSetdefault, if_pos h]

theorem jMember_jSetdefault (m : List (String × JVal)) (k : String) (v : JVal) :
    jMember (jSetdefault m k v) k = true := by
  rw [jSetdefault]
  by_cases h : jMember m k = true
  · rw [if_pos h]
    exact h
  · rw [if_neg h, jMember, jLookup_append]
    have hnone : jLookup m k = none := by
      rw [jMember] at h
      cases hl : jLookup m k with
      | none => rfl
      | some v0 => rw [hl] at h; exact absurd rfl h
    rw [hnone, jLookup, if_pos rfl]
    rfl

theorem load_save (data : List (String × JVal)) :
    StateStore.load (StateStore.save data)
      = jSetdefault data "profiles" (JVal.obj []) := rfl

theorem jMember_false_lookup {m : List (String × JVal)} {k : String}
    (h : jMember m k = false) : jLookup m k = none := by
  rw [jMember] at h
  cases hl : jLookup m k with
  | none => rfl
  | some v => rw [hl] at h; cases h

theorem profilesOf_save {m ps : List (String × JVal)}
    (h : jLookup m "profiles" = some (JVal.obj ps)) :
    StateStore.profilesOf (StateStore.save m) = some ps := by
  have hm : jMember m "profiles" = true := by rw [jMember, h]; rfl
  rw [StateStore.profilesOf, load_save, jSetdefault_of_member _ hm,
    jSetdefault_of_member _ hm, h]

theorem get_after_record {disk : Disk} {k : String}
    {rf : List (String × JVal)} {d' : Disk}
    (h : StateStore.record_profile disk k (JVal.obj rf) = some d') :
    StateStore.get_profile d' k = some (some (JVal.obj rf)) := by
  simp only [StateStore.record_profile] at h
  cases hst : jLookup (jSetdefault (StateStore.load disk) "profiles"
      (JVal.obj [])) "profiles" with
  | none => rw [hst] at h; cases h
  | some v =>
      rw [hst] at h
      cases v with
      | obj ps =>
          injection h with h
          subst h
          have hget : StateStore.get_profile
              (StateStore.save (jSet (jSetdefault (StateStore.load disk)
                "profiles" (JVal.obj [])) "profiles"
                (JVal.obj (jSet ps k (JVal.obj rf))))) k
              = (match jLookup (jSet ps k (JVal.obj rf)) k with
                  | some (.obj fields) => some (some (JVal.obj fields))
                  | _ => some none) := by
            rw [StateStore.get_profile, profilesOf_save (jLookup_jSet_self _ _ _)]
          rw [hget, jLookup_jSet_self]
      | null => cases h
      | bool b => cases h
      | num n => cases h
      | str s => cases h
      | arr xs => cases h

theorem get_after_remove {disk : Disk} {k : String} {rem : Option JVal}
    {d' : Disk} (h : StateStore.remove_profile disk k = some (rem, d')) :
    StateStore.get_profile d' k = some none := by
  simp only [StateStore.remove_profile] at h
  cases hst : jLookup (jSetdefault (StateStore.load disk) "profiles"
      (JVal.obj [])) "profiles" with
  | none => rw [hst] at h; cases h
  | some v =>
      rw [hst] at h
      cases v with
      | obj ps =>
          injection h with h
          have hd : d' = StateStore.save (jSet (jSetdefault (StateStore.load disk)
              "profiles" (JVal.obj [])) "profiles" (JVal.obj (jRemove ps k))) :=
            (congrArg Prod.snd h).symm
          have hget : StateStore.get_profile
              (StateStore.save (jSet (jSetdefault (StateStore.load disk)
                "profiles" (JVal.obj [])) "profiles"
                (JVal.obj (jRemove ps k)))) k
              = (match jLookup (jRemove ps k) k with
                  | some (.obj fields) => some (some (JVal.obj fields))
                  | _ => some none) := by
            rw [StateStore.get_profile, profilesOf_save (jLookup_jSet_self _ _ _)]
          rw [hd, hget, jLookup_jRemove_self]
      | null => cases h
      | bool b => cases h
      | num n => cases h
      | str s => cases h
      | arr xs => cases h

theorem remove_absent {disk : Disk} {k : String} {ps : List (String × JVal)}
    (hp : StateStore.profilesOf disk = some ps) (h : jMember ps k = false) :
    ∃ d', StateStore.remove_profile disk k = some (none, d') := by
  rw [StateStore.profilesOf] at hp
  cases hst : jLookup (jSetdefault (StateStore.load disk) "profiles"
      (JVal.obj [])) "profiles" with
  | none => rw [hst] at hp; cases hp
  | some v =>
      rw [hst] at hp
      cases v with
      | obj ps' =>
          have hps : ps' = ps := by
            dsimp only at hp
            injection hp
          rw [hps] at hst
          refine ⟨StateStore.save (jSet (jSetdefault (StateStore.load disk)
            "profiles" (JVal.obj [])) "profiles" (JVal.obj (jRemove ps k))), ?_⟩
          have hstep : StateStore.remove_profile disk k
              = some (jLookup ps k,
                  StateStore.save (jSet (jSetdefault (StateStore.load disk)
                    "profiles" (JVal.obj [])) "profiles"
                    (JVal.obj (jRemove ps k)))) := by
            simp only [StateStore.remove_profile]
            rw [hst]
          rw [hstep, jMember_false_lookup h]
      | null => cases hp
      | bool b => cases hp
      | num n => cases hp
      | str s => cases hp
      | arr xs => cases hp

theorem jLookup_jSetdefault_other {m : List (String × JVal)} {k k' : String}
    (v : JVal) (h : k ≠ k') :
    jLookup (jSetdefault m k' v) k = jLookup m k := by
  rw [jSetdefault]
  by_cases hm : jMember m k' = true
  · rw [if_pos hm]
  · rw [if_neg hm, jLookup_append]
    cases hl : jLookup m k with
    | some v0 => rfl
    | none =>
        rw [jLookup, if_neg (fun e => h e.symm)]
        rfl

/-! ### `StateStore.find_profile_key` -/

/-- `str(profile.get(field, "")).lower()` restricted to the modelled cases:
an absent field reads as `""`, a string field as itself; `none` marks the
unmodelled `str()` of a non-string value or `.get` on a non-dict record. -/
def recFieldStr (p : JVal) (field : String) : Option String :=
  match p with
  | .obj fields =>
      match jLookup fields field with
      | some (.str s) => some s
      | none => some ""
      | some _ => none
  | _ => none

/-- The record-scanning loop of `find_profile_key`. -/
def scanProfiles (q : String) : List (String × JVal) → Option (Option String)
  | [] => some none
  | (k, prof) :: rest =>
      match recFieldStr prof "name", recFieldStr prof "desktop_id" with
      | some nm, some did =>
          let name := pyLower nm
          let desktop_id := pyLower did
          if q = name ∨ q = desktop_id then some (some k)
          else if strSub q name || strSub q desktop_id then some (some k)
          else scanProfiles q rest
      | _, _ => none

/-- `StateStore.find_profile_key`; the outer `none` marks the unmodelled
crash on malformed records. -/
def find_profile_key (disk : Disk) (query : String) : Option (Option String) :=
  let q := pyLower (pyStrip query)
  if q = "" then some none
  else
    match StateStore.all_profiles disk with
    | none => none
    | some profiles =>
        if jMember profiles q then some (some q)
        else scanProfiles q profiles

/-- The scan as the spec words it: the first key whose stored name or
identity matches the query exactly or contains it as a substring. -/
def findKeySpec (q : String) (profiles : List (String × JVal)) :
    Option String :=
  profiles.findSome? (fun p =>
    match recFieldStr p.2 "name", recFieldStr p.2 "desktop_id" with
    | some nm, some did =>
        if (q = pyLower nm ∨ strSub q (pyLower nm) = true)
            ∨ (q = pyLower did ∨ strSub q (pyLower did) = true) then some p.1
        else none
    | _, _ => none)

theorem listStarts_refl {α : Type} [DecidableEq α] (l : List α) :
    listStarts l l = true := by
  induction l with
  | nil => rfl
  | cons c t ih => rw [listStarts, if_pos rfl]; exact ih

theorem listSub_refl {α : Type} [DecidableEq α] (l : List α) :
    listSub l l = true := by
  cases l with
  | nil => rfl
  | cons c t => rw [listSub, listStarts_refl]; rfl

theorem strSub_of_eq {q s : String} (h : q = s) : strSub q s = true := by
  subst h
  exact listSub_refl q.data

/-- Well-formedness of the records consulted by the scan. -/
def scanWF (profiles : List (String × JVal)) : Prop :=
  ∀ p ∈ profiles, (recFieldStr p.2 "name").isSome = true ∧
    (recFieldStr p.2 "desktop_id").isSome = true

theorem scanProfiles_eq_spec (q : String) :
    ∀ (profiles : List (String × JVal)), scanWF profiles →
      scanProfiles q profiles = some (findKeySpec q profiles) := by
  intro profiles
  induction profiles with
  | nil => intro _; rfl
  | cons p rest ih =>
      intro hwf
      obtain ⟨k, prof⟩ := p
      obtain ⟨hn, hd⟩ := hwf _ (List.mem_cons_self _ _)
      obtain ⟨nm, hnm⟩ := Option.isSome_iff_exists.mp hn
      obtain ⟨did, hdid⟩ := Option.isSome_iff_exists.mp hd
      have hrest : scanWF rest := fun x hx => hwf x (List.mem_cons_of_mem _ hx)
      have hLHS : scanProfiles q ((k, prof) :: rest)
          = (if q = pyLower nm ∨ q = pyLower did then some (some k)
             else if (strSub q (pyLower nm) || strSub q (pyLower did)) = true
               then some (some k)
             else scanProfiles q rest) := by
        rw [scanProfiles, hnm, hdid]
      have hfA : ((q = pyLower nm ∨ strSub q (pyLower nm) = true)
            ∨ (q = pyLower did ∨ strSub q (pyLower did) = true)) →
          findKeySpec q ((k, prof) :: rest) = some k := by
        intro hcond
        rw [findKeySpec, List.findSome?_cons]
        dsimp only
        rw [hnm, hdid]
        dsimp only
        rw [if_pos hcond]
      have hfB : ¬((q = pyLower nm ∨ strSub q (pyLower nm) = true)
            ∨ (q = pyLower did ∨ strSub q (pyLower did) = true)) →
          findKeySpec q ((k, prof) :: rest) = findKeySpec q rest := by
        intro hcond
        rw [findKeySpec, List.findSome?_cons]
        dsimp only
        rw [hnm, hdid]
        dsimp only
        rw [if_neg hcond]
        rfl
      rw [hLHS]
      by_cases h1 : q = pyLower nm ∨ q = pyLower did
      · rw [if_pos h1,
          hfA (by rcases h1 with h | h
                  · exact Or.inl (Or.inl h)
                  · exact Or.inr (Or.inl h))]
      · rw [if_neg h1]
        by_cases h2 : (strSub q (pyLower nm) || strSub q (pyLower did)) = true
        · rcases Bool.or_eq_true .. |>.mp h2 with h | h
          · rw [if_pos h2, hfA (Or.inl (Or.inr h))]
          · rw [if_pos h2, hfA (Or.inr (Or.inr h))]
        · have hbig : ¬((q = pyLower nm ∨ strSub q (pyLower nm) = true)
              ∨ (q = pyLower did ∨ strSub q (pyLower did) = true)) := by
            rintro ((h | h) | (h | h))
            · exact h1 (Or.inl h)
            · exact h2 (Bool.or_eq_true .. |>.mpr (Or.inl h))
            · exact h1 (Or.inr h)
            · exact h2 (Bool.or_eq_true .. |>.mpr (Or.inr h))
          rw [if_neg h2, hfB hbig, ih hrest]

theorem pyLower_empty_iff (s : String) : pyLower s = "" ↔ s = "" := by
  constructor
  · intro h
    have hd : s.data.map Char.toLower = [] := congrArg String.data h
    cases hs : s.data with
    | nil => cases s; simp_all
    | cons c t => rw [hs] at hd; cases hd
  · intro h
    subst h
    rfl

/-- `find_profile_key` characterised: empty trimmed query gives `none`; a
direct key hit returns the normalized query; otherwise the scan returns the
first record whose name or identity matches exactly or by containment. -/
theorem find_profile_key_spec (disk : Disk) (query : String)
    (profiles : List (String × JVal)) :
    (pyStrip query = "" → find_profile_key disk query = some none) ∧
    (pyStrip query ≠ "" → StateStore.all_profiles disk = some profiles →
      jMember profiles (pyLower (pyStrip query)) = true →
      find_profile_key disk query = some (some (pyLower (pyStrip query)))) ∧
    (pyStrip query ≠ "" → StateStore.all_profiles disk = some profiles →
      jMember profiles (pyLower (pyStrip query)) = false → scanWF profiles →
      find_profile_key disk query
        = some (findKeySpec (pyLower (pyStrip query)) profiles)) := by
  refine ⟨?_, ?_, ?_⟩
  · intro h
    rw [find_profile_key, h]
    rfl
  · intro hq hp hm
    have hq' : pyLower (pyStrip query) ≠ "" :=
      fun e => hq ((pyLower_empty_iff _).mp e)
    have hstep : find_profile_key disk query
        = (if jMember profiles (pyLower (pyStrip query))
           then some (some (pyLower (pyStrip query)))
           else scanProfiles (pyLower (pyStrip query)) profiles) := by
      rw [find_profile_key, if_neg hq', hp]
    rw [hstep, if_pos hm]
  · intro hq hp hm hwf
    have hq' : pyLower (pyStrip query) ≠ "" :=
      fun e => hq ((pyLower_empty_iff _).mp e)
    have hstep : find_profile_key disk query
        = (if jMember profiles (pyLower (pyStrip query))
           then some (some (pyLower (pyStrip query)))
           else scanProfiles (pyLower (pyStrip query)) profiles) := by
      rw [find_profile_key, if_neg hq', hp]
    rw [hstep, if_neg (by rw [hm]; exact Bool.false_ne_true),
      scanProfiles_eq_spec _ _ hwf]

theorem jMember_load (disk : Disk) :
    jMember (StateStore.load disk) "profiles" = true := by
  cases disk with
  | missing => rfl
  | unreadable => rfl
  | corrupt => rfl
  | stored v =>
      cases v with
      | obj fields => exact jMember_jSetdefault _ _ _
      | null => rfl
      | bool b => rfl
      | num n => rfl
      | str s => rfl
      | arr xs => rfl

theorem load_preserves_other (fields : List (String × JVal)) (key : String)
    (h : key ≠ "profiles") :
    jLookup (StateStore.load (Disk.stored (JVal.obj fields))) key
      = jLookup fields key := by
  show jLookup (jSetdefault fields "profiles" (JVal.obj [])) key = _
  exact jLookup_jSetdefault_other _ h

theorem load_defaults_profiles (fields : List (String × JVal))
    (h : jMember fields "profiles" = false) :
    jLookup (StateStore.load (Disk.stored (JVal.obj fields))) "profiles"
      = some (JVal.obj []) := by
  show jLookup (jSetdefault fields "profiles" (JVal.obj [])) "profiles" = _
  rw [jSetdefault, if_neg (by rw [h]; exact Bool.false_ne_true),
    jLookup_append, jMember_false_lookup h, jLookup, if_pos rfl]

/-! ### Desktop entry parsing (`detect._parse_desktop_entry`) -/

/-- The mutable parsing state of `_parse_desktop_entry`. -/
structure ParseSt where
  name : String
  generic_name : String
  icon : String
  exec_cmd : String
  app_type : String
  hidden : Bool
  no_display : Bool
  keywords : List String
  in_desktop_entry : Bool
deriving Repr, DecidableEq

/-- Initial parser state (`app_type = "Application"`). -/
def initParseSt : ParseSt :=
  ⟨"", "", "", "", "Application", false, false, [], false⟩

/-- `line.split("=", 1)`. -/
def splitKV (l : List Char) : String × String :=
  (⟨l.takeWhile (fun c => c ≠ '=')⟩, ⟨(l.dropWhile (fun c => c ≠ '=')).drop 1⟩)

/-- One iteration of the line loop of `_parse_desktop_entry`. -/
def processLine (st : ParseSt) (rawLine : String) : ParseSt :=
  let line := pyStrip rawLine
  if line = "" then st
  else if strStarts "#" line then st
  else if strStarts "[" line then
    { st with in_desktop_entry := line = "[Desktop Entry]" }
  else if st.in_desktop_entry = false then st
  else if line.data.any (fun c => c = '=') = false then st
  else
    let kv := splitKV line.data
    let key := pyStrip kv.1
    let value := pyStrip kv.2
    if strStarts "Name[" key = true ∧ st.name = "" then { st with name := value }
    else if key = "Name" ∧ st.name = "" then { st with name := value }
    else if strStarts "GenericName[" key = true ∧ st.generic_name = "" then
      { st with generic_name := value }
    else if key = "GenericName" ∧ st.generic_name = "" then
      { st with generic_name := value }
    else if key = "Icon" ∧ st.icon = "" then { st with icon := value }
    else if key = "Exec" ∧ st.exec_cmd = "" then { st with exec_cmd := value }
    else if key = "Type" then { st with app_type := value }
    else if key = "Hidden" then { st with hidden := pyLower value = "true" }
    else if key = "NoDisplay" then
      { st with no_display := pyLower value = "true" }
    else if key = "Keywords" then
      { st with keywords :=
          (((splitOnList ';' value.data).map
              (fun part => pyStrip ⟨part⟩)).filter (fun part => part ≠ "")) }
    else st

/-- `processLine` with the stripped line, key and value abstracted, for
case analysis on the `elif` chain. -/
def processLineG (st : ParseSt) (l k v : String) : ParseSt :=
  if l = "" then st
  else if strStarts "#" l then st
  else if strStarts "[" l then
    { st with in_desktop_entry := l = "[Desktop Entry]" }
  else if st.in_desktop_entry = false then st
  else if l.data.any (fun c => c = '=') = false then st
  else if strStarts "Name[" k = true ∧ st.name = "" then { st with name := v }
  else if k = "Name" ∧ st.name = "" then { st with name := v }
  else if strStarts "GenericName[" k = true ∧ st.generic_name = "" then
    { st with generic_name := v }
  else if k = "GenericName" ∧ st.generic_name = "" then
    { st with generic_name := v }
  else if k = "Icon" ∧ st.icon = "" then { st with icon := v }
  else if k = "Exec" ∧ st.exec_cmd = "" then { st with exec_cmd := v }
  else if k = "Type" then { st with app_type := v }
  else if k = "Hidden" then { st with hidden := pyLower v = "true" }
  else if k = "NoDisplay" then { st with no_display := pyLower v = "true" }
  else if k = "Keywords" then
    { st with keywords :=
        (((splitOnList ';' v.data).map
            (fun part => pyStrip ⟨part⟩)).filter (fun part => part ≠ "")) }
  else st

theorem processLine_eqG (st : ParseSt) (rawLine : String) :
    processLine st rawLine
      = processLineG st (pyStrip rawLine)
        (pyStrip (splitKV (pyStrip rawLine).data).1)
        (pyStrip (splitKV (pyStrip rawLine).data).2) := rfl

/-- Once `name`, `generic_name`, `icon` or `exec_cmd` is non-empty, no
branch of the `elif` chain overwrites it. -/
theorem processLineG_fields (st : ParseSt) (l k v : String) :
    ((processLineG st l k v).name = st.name ∨ st.name = "")
    ∧ ((processLineG st l k v).generic_name = st.generic_name
        ∨ st.generic_name = "")
    ∧ ((processLineG st l k v).icon = st.icon ∨ st.icon = "")
    ∧ ((processLineG st l k v).exec_cmd = st.exec_cmd
        ∨ st.exec_cmd = "") := by
  rw [processLineG]
  by_cases h1 : l = ""
  · rw [if_pos h1]; exact ⟨.inl rfl, .inl rfl, .inl rfl, .inl rfl⟩
  rw [if_neg h1]
  by_cases h2 : strStarts "#" l = true
  · rw [if_pos h2]; exact ⟨.inl rfl, .inl rfl, .inl rfl, .inl rfl⟩
  rw [if_neg h2]
  by_cases h3 : strStarts "[" l = true
  · rw [if_pos h3]; exact ⟨.inl rfl, .inl rfl, .inl rfl, .inl rfl⟩
  rw [if_neg h3]
  by_cases h4 : st.in_desktop_entry = false
  · rw [if_pos h4]; exact ⟨.inl rfl, .inl rfl, .inl rfl, .inl rfl⟩
  rw [if_neg h4]
  by_cases h5 : l.data.any (fun c => c = '=') = false
  · rw [if_pos h5]; exact ⟨.inl rfl, .inl rfl, .inl rfl, .inl rfl⟩
  rw [if_neg h5]
  by_cases h6 : strStarts "Name[" k = true ∧ st.name = ""
  · rw [if_pos h6]; exact ⟨.inr h6.2, .inl rfl, .inl rfl, .inl rfl⟩
  rw [if_neg h6]
  by_cases h7 : k = "Name" ∧ st.name = ""
  · rw [if_pos h7]; exact ⟨.inr h7.2, .inl rfl, .inl rfl, .inl rfl⟩
  rw [if_neg h7]
  by_cases h8 : strStarts "GenericName[" k = true ∧ st.generic_name = ""
  · rw [if_pos h8]; exact ⟨.inl rfl, .inr h8.2, .inl rfl, .inl rfl⟩
  rw [if_neg h8]
  by_cases h9 : k = "GenericName" ∧ st.generic_name = ""
  · rw [if_pos h9]; exact ⟨.inl rfl, .inr h9.2, .inl rfl, .inl rfl⟩
  rw [if_neg h9]
  by_cases h10 : k = "Icon" ∧ st.icon = ""
  · rw [if_pos h10]; exact ⟨.inl rfl, .inl rfl, .inr h10.2, .inl rfl⟩
  rw [if_neg h10]
  by_cases h11 : k = "Exec" ∧ st.exec_cmd = ""
  · rw [if_pos h11]; exact ⟨.inl rfl, .inl rfl, .inl rfl, .inr h11.2⟩
  rw [if_neg h11]
  by_cases h12 : k = "Type"
  · rw [if_pos h12]; exact ⟨.inl rfl, .inl rfl, .inl rfl, .inl rfl⟩
  rw [if_neg h12]
  by_cases h13 : k = "Hidden"
  · rw [if_pos h13]; exact ⟨.inl rfl, .inl rfl, .inl rfl, .inl rfl⟩
  rw [if_neg h13]
  by_cases h14 : k = "NoDisplay"
  · rw [if_pos h14]; exact ⟨.inl rfl, .inl rfl, .inl rfl, .inl rfl⟩
  rw [if_neg h14]
  by_cases h15 : k = "Keywords"
  · rw [if_pos h15]; exact ⟨.inl rfl, .inl rfl, .inl rfl, .inl rfl⟩
  rw [if_neg h15]
  exact ⟨.inl rfl, .inl rfl, .inl rfl, .inl rfl⟩

/-- `detect._parse_desktop_entry`: the file is given by its path and its
decoded lines (the I/O and `splitlines` are external). -/
def _parse_desktop_entry (path : String) (lines : List String) :
    Option AppEntry :=
  let st := lines.foldl processLine initParseSt
  if st.name = "" then none
  else if pyLower st.app_type ≠ "application" then none
  else if st.hidden = true ∨ st.no_display = true then none
  else some ⟨pathName path, st.name, st.generic_name, st.icon, st.exec_cmd,
    path, st.keywords⟩

/-! ### CLI generation flow (`cli.py`, `--gen` and `--gen-all`) -/

/-- Keyword parameters accepted by `generate.generate_for_app` besides the
positional `app`. -/
def generate_for_app_kwargs : List String :=
  ["output_root", "end4_dir", "fallback_image", "dry_run"]

/-- Keyword arguments passed by `cli.main` at both generation call sites. -/
def cli_generate_call_kwargs : List String :=
  ["output_root", "end4_dir", "fallback_image", "dry_run", "verbose"]

/-- Python call binding: every supplied keyword must be a parameter of the
callee; an unexpected keyword raises `TypeError` before the body runs. -/
def kwargsBindOk (accepted supplied : List String) : Bool :=
  supplied.all (fun k => accepted.contains k)

/-- The key the CLI computes: `normalize_app_key(app.desktop_id or app.name)`. -/
def cliAppKey (app : AppEntry) : String :=
  normalize_app_key (if app.desktop_id = "" then app.name else app.desktop_id)

/-- Truthiness of `profiles.get(app_key)`. -/
def truthyOpt : Option JVal → Bool
  | none => false
  | some v => v.truthy

inductive GenOutcome where
  | skipped
  | failed
  | completed
deriving Repr, DecidableEq

/-- Result of the `--gen` branch: outcome, exit code, resulting store state,
and whether the external palette tool was invoked. -/
structure GenResult where
  outcome : GenOutcome
  exit : Int
  disk : Disk
  external_invoked : Bool

/-- The `--gen` branch of `cli.main` from the computed app key onward.
`body` abstracts everything that would follow a successful keyword binding
of the `generate_for_app` call (the callee body, the external invocation,
the subsequent `record_profile`). A non-dict `profiles` value crashes inside
the `try` (`dict(profiles)`), so it is also caught and mapped to exit 2. -/
def gen_branch (body : GenResult) (disk : Disk) (app : AppEntry)
    (force : Bool) : GenResult :=
  let app_key := cliAppKey app
  match StateStore.all_profiles disk with
  | none => ⟨.failed, 2, disk, false⟩
  | some profiles =>
      if (truthyOpt (jLookup profiles app_key) && !force) = true then
        ⟨.skipped, 0, disk, false⟩
      else if kwargsBindOk generate_for_app_kwargs cli_generate_call_kwargs
          = true then body
      else ⟨.failed, 2, disk, false⟩

/-- Counters and state carried through the `--gen-all` loop. -/
structure BatchAcc where
  succeeded : Nat
  failed : Nat
  skipped : Nat
  disk : Disk
  external_invoked : Bool

/-- Per-application test of the `--gen-all` skip branch
(`app_key in state_profiles and not args.force`). -/
def skipTest (profiles : List (String × JVal)) (force : Bool)
    (app : AppEntry) : Bool :=
  jMember profiles (cliAppKey app) && !force

/-- One iteration of the `--gen-all` loop; `body` abstracts the execution
following a successful keyword binding of the generation call. -/
def gen_all_step (body : AppEntry → BatchAcc → BatchAcc)
    (profiles : List (String × JVal)) (force : Bool)
    (acc : BatchAcc) (app : AppEntry) : BatchAcc :=
  if skipTest profiles force app = true then
    { acc with skipped := acc.skipped + 1 }
  else if kwargsBindOk generate_for_app_kwargs cli_generate_call_kwargs
      = true then body app acc
  else { acc with failed := acc.failed + 1 }

/-- The `--gen-all` branch of `cli.main`: the profiles snapshot is loaded
once, applications are processed sequentially, the exit code is 0 iff no
failure; `none` models the uncaught crash on a non-dict `profiles` value
(that call sits outside the `try`). -/
def gen_all (body : AppEntry → BatchAcc → BatchAcc) (disk : Disk)
    (apps : List AppEntry) (force : Bool) : Option (BatchAcc × Int) :=
  match StateStore.all_profiles disk with
  | none => none
  | some profiles =>
      let acc := apps.foldl (gen_all_step body profiles force)
        ⟨0, 0, 0, disk, false⟩
      some (acc, if acc.failed = 0 then 0 else 4)

theorem kwargsBindOk_cli_false :
    kwargsBindOk generate_for_app_kwargs cli_generate_call_kwargs = false := by
  decide

/-- The `--gen-all` loop only increments `skipped` or `failed`: with the
broken keyword binding nothing ever succeeds, no record is written, and the
external tool is never invoked. -/
theorem gen_all_fold (body : AppEntry → BatchAcc → BatchAcc)
    (profiles : List (String × JVal)) (force : Bool) :
    ∀ (apps : List AppEntry) (acc : BatchAcc),
      apps.foldl (gen_all_step body profiles force) acc
        = ⟨acc.succeeded,
           acc.failed + (apps.filter (fun a => !skipTest profiles force a)).length,
           acc.skipped + (apps.filter (skipTest profiles force)).length,
           acc.disk, acc.external_invoked⟩ := by
  intro apps
  induction apps with
  | nil => intro acc; simp
  | cons a rest ih =>
      intro acc
      rw [List.foldl_cons, gen_all_step]
      by_cases hs : skipTest profiles force a = true
      · rw [if_pos hs, ih]
        rw [List.filter_cons, List.filter_cons,
          if_neg (by rw [hs]; decide), if_pos (by rw [hs])]
        simp only [List.length_cons, BatchAcc.mk.injEq, eq_self_iff_true,
          true_and, and_true]
        omega
      · have hs' : skipTest profiles force a = false := by
          cases h : skipTest profiles force a
          · rfl
          · exact absurd h hs
        rw [if_neg hs,
          if_neg (by rw [kwargsBindOk_cli_false]; exact Bool.false_ne_true), ih]
        rw [List.filter_cons, List.filter_cons,
          if_pos (by rw [hs']; decide), if_neg (by rw [hs']; decide)]
        simp only [List.length_cons, BatchAcc.mk.injEq, eq_self_iff_true,
          true_and, and_true]
        omega

/-! ### Removal safety (`generate.ungen_app_path`, `cli._remove_tracked_paths`,
and the `--ungen` branch of `cli.main`) -/

/-- Filesystem paths, already resolved, as component lists
(`Path.resolve` is the identity on this model). -/
abbrev FsPath := List String

/-- The filesystem as the finite set of existing paths. -/
abbrev Fs := List FsPath

/-- `generate._safe_within`: `child.resolve().relative_to(parent.resolve())`
succeeds exactly when `parent` is an ancestor of, or equal to, `child`. -/
def _safe_within (parent child : FsPath) : Bool := listStarts parent child

/-- `shutil.rmtree`: removes the directory and everything below it. -/
def rmtree (fs : Fs) (p : FsPath) : Fs :=
  fs.filter (fun q => !(listStarts p q))

/-- `Path.unlink` on an existing file. -/
def unlink (fs : Fs) (p : FsPath) : Fs := fs.filter (fun q => q ≠ p)

/-- `Path.rmdir`: succeeds only on an existing directory with nothing below
it; `none` models the `OSError` swallowed by the caller. -/
def rmdir (fs : Fs) (p : FsPath) : Option Fs :=
  if p ∈ fs ∧ ∀ q ∈ fs, q = p ∨ listStarts p q = false then
    some (fs.filter (fun q => q ≠ p))
  else none

/-- The `RuntimeError("Refusing to remove unmanaged path: ...")` of
`ungen_app_path` — the SafetyViolation of the spec. -/
inductive RemovalError where
  | safetyViolation
deriving Repr, DecidableEq

/-- `generate.ungen_app_path`. The containment check runs only when the path
exists, and precedes any deletion, so on error the filesystem is unchanged. -/
def ungen_app_path (fs : Fs) (path : FsPath) (dry_run : Bool)
    (managed_root : Option FsPath) : Except RemovalError Fs :=
  if path ∈ fs then
    match managed_root with
    | some root =>
        if _safe_within root path = false then .error .safetyViolation
        else if dry_run then .ok fs else .ok (rmtree fs path)
    | none => if dry_run then .ok fs else .ok (rmtree fs path)
  else .ok fs

/-- The record fields consulted by `_remove_tracked_paths`: `output_dir`
(`none` for a missing or empty string) and the optional `end4_json_path`,
both as parsed paths. -/
structure TrackedRecord where
  output_dir : Option FsPath
  end4_json_path : Option FsPath

/-- `cli._remove_tracked_paths`: remove the managed output directory through
`ungen_app_path`, then delete the externally-mirrored copy (unlinked without
any containment check) and opportunistically prune its two parent
directories (`try ... except OSError: pass`). -/
def _remove_tracked_paths (fs : Fs) (record : TrackedRecord) (dry_run : Bool)
    (managed_root : Option FsPath) : Except RemovalError Fs :=
  match (match record.output_dir with
         | some od => ungen_app_path fs od dry_run managed_root
         | none => .ok fs) with
  | .error e => .error e
  | .ok fs1 =>
      match record.end4_json_path with
      | some e4 =>
          if e4 ∈ fs1 ∧ dry_run = false then
            let fs2 := unlink fs1 e4
            let fs3 :=
              match rmdir fs2 e4.dropLast with
              | some fsp =>
                  (match rmdir fsp e4.dropLast.dropLast with
                   | some fspp => fspp
                   | none => fsp)
              | none => fs2
            .ok fs3
          else .ok fs1
      | none => .ok fs1

/-- The `--ungen` branch of `cli.main` from the resolved record onward:
tracked-path removal, then `remove_profile`. A removal exception yields exit
3 with the store untouched; the exception is raised before any deletion, so
the input filesystem is returned unchanged. The final `none` marks the
unmodelled crash of `remove_profile` on a non-dict `profiles` value. -/
def ungen_branch (fs : Fs) (disk : Disk) (final_key : String)
    (record : TrackedRecord) (dry_run : Bool)
    (managed_root : Option FsPath) : Int × Fs × Option Disk :=
  match _remove_tracked_paths fs record dry_run managed_root with
  | .error _ => (3, fs, some disk)
  | .ok fs' =>
      match StateStore.remove_profile disk final_key with
      | some (_, disk') => (0, fs', some disk')
      | none => (0, fs', none)

/-! ### Stage structure of `match_app` (non-exact path) -/

theorem match_app_singleton (sim : String → String → ℚ) (app_name : String)
    (apps : List AppEntry) (c : AppEntry)
    (hq : pyLower (pyStrip app_name) ≠ "") (hne : apps.isEmpty = false)
    (hcs : containsSet (pyLower (pyStrip app_name)) apps = [c]) :
    match_app sim app_name apps false = .ok c := by
  rw [match_app, if_neg hq, if_neg (by rw [hne]; exact Bool.false_ne_true),
    if_neg Bool.false_ne_true, hcs]

theorem match_app_fuzzy (sim : String → String → ℚ) (app_name : String)
    (apps : List AppEntry)
    (hq : pyLower (pyStrip app_name) ≠ "") (hne : apps.isEmpty = false)
    (hcs : (containsSet (pyLower (pyStrip app_name)) apps).length ≠ 1) :
    match_app sim app_name apps false
      = fuzzyStage sim (pyLower (pyStrip app_name))
          (fuzzyPool (pyLower (pyStrip app_name)) apps) := by
  rcases hcase : containsSet (pyLower (pyStrip app_name)) apps with _ | ⟨c, _ | ⟨d, t⟩⟩
  · rw [match_app, if_neg hq, if_neg (by rw [hne]; exact Bool.false_ne_true),
      if_neg Bool.false_ne_true, hcase]
  · rw [hcase] at hcs
    simp at hcs
  · rw [match_app, if_neg hq, if_neg (by rw [hne]; exact Bool.false_ne_true),
      if_neg Bool.false_ne_true, hcase]

theorem isEmpty_false_of_ne_nil {α : Type} {l : List α} (h : l ≠ []) :
    l.isEmpty = false := by
  cases l with
  | nil => exact absurd rfl h
  | cons a t => rfl

/-- C4: whenever the non-exact matcher reaches the fuzzy stage (the
containment set is not a singleton), it computes each pool candidate's best
alias similarity score, selects the overall maximum with ties resolved to
the first-seen candidate in input order, fails with NotFound exactly when
the winning score is strictly below 0.45, and returns the winner at or
above 0.45. -/
theorem claim_C4 (sim : String → String → ℚ) (app_name : String)
    (apps : List AppEntry) :
    pyStrip app_name ≠ "" → apps ≠ [] → (∀ a ∈ apps, a.aliases ≠ []) →
    (containsSet (pyLower (pyStrip app_name)) apps).length ≠ 1 →
    ∃ m w,
      ((fuzzyPool (pyLower (pyStrip app_name)) apps).map
          (bestScoreD sim (pyLower (pyStrip app_name)))).maximum = some m
      ∧ (fuzzyPool (pyLower (pyStrip app_name)) apps).find?
          (fun a => decide (bestScoreD sim (pyLower (pyStrip app_name)) a = m))
          = some w
      ∧ match_app sim app_name apps false
          = (if m < 45 / 100 then Except.error MatchError.noLikelyMatch
             else Except.ok w) := by
  intro hq hne hal hcs
  have hq' : pyLower (pyStrip app_name) ≠ "" :=
    fun e => hq ((pyLower_empty_iff _).mp e)
  have hne' : apps.isEmpty = false := isEmpty_false_of_ne_nil hne
  have hpoolne : fuzzyPool (pyLower (pyStrip app_name)) apps ≠ [] := by
    rw [fuzzyPool]
    split
    · exact hne
    · next hcE =>
        intro h0
        exact hcE (by rw [h0]; rfl)
  have hpoolal : ∀ a ∈ fuzzyPool (pyLower (pyStrip app_name)) apps,
      a.aliases ≠ [] := by
    intro a ha
    rw [fuzzyPool] at ha
    by_cases hcE : (containsSet (pyLower (pyStrip app_name)) apps).isEmpty = true
    · rw [if_pos hcE] at ha
      exact hal a ha
    · rw [if_neg hcE] at ha
      exact hal a (List.mem_of_mem_filter ha)
  obtain ⟨m, w, h1, h2, h3⟩ := fuzzyStage_spec sim (pyLower (pyStrip app_name))
    (fuzzyPool (pyLower (pyStrip app_name)) apps) hpoolne hpoolal
  exact ⟨m, w, h1, h2, by rw [match_app_fuzzy sim app_name apps hq' hne' hcs, h3]⟩

/-- Entries and a similarity function used by the matcher witnesses. -/
def wApp1 : AppEntry := ⟨"aa", "", "", "", "", "", []⟩

def wApp2 : AppEntry := ⟨"ab", "", "", "", "", "", []⟩

def wAlpha : AppEntry := ⟨"alpha", "", "", "", "", "", []⟩

def wBeta : AppEntry := ⟨"beta", "", "", "", "", "", []⟩

def simEq : String → String → ℚ := fun a b => if a = b then 1 else 0

/-- Witness for C4: a two-entry pool with no containment hits; the best
fuzzy score is 0, which is below the threshold, so the matcher fails. -/
theorem claim_C4_witness :
    pyStrip "zz" ≠ "" ∧ ([wApp1, wApp2] : List AppEntry) ≠ []
    ∧ (∀ a ∈ [wApp1, wApp2], a.aliases ≠ [])
    ∧ (containsSet (pyLower (pyStrip "zz")) [wApp1, wApp2]).length ≠ 1
    ∧ ∃ m w,
      ((fuzzyPool (pyLower (pyStrip "zz")) [wApp1, wApp2]).map
          (bestScoreD simEq (pyLower (pyStrip "zz")))).maximum = some m
      ∧ (fuzzyPool (pyLower (pyStrip "zz")) [wApp1, wApp2]).find?
          (fun a => decide (bestScoreD simEq (pyLower (pyStrip "zz")) a = m))
          = some w
      ∧ match_app simEq "zz" [wApp1, wApp2] false
          = (if m < 45 / 100 then Except.error MatchError.noLikelyMatch
             else Except.ok w) :=
  ⟨by decide, by decide, by decide, by decide,
    claim_C4 simEq "zz" [wApp1, wApp2] (by decide) (by decide) (by decide)
      (by decide)⟩

/-- C5: with `exact` unset, a singleton containment set short-circuits —
the entry is returned for every similarity function, so no fuzzy score is
consulted; a larger containment set restricts the fuzzy pool to it, and an
empty one leaves the full input as the pool. -/
theorem claim_C5 (sim : String → String → ℚ) (app_name : String)
    (apps : List AppEntry) (c : AppEntry) :
    pyStrip app_name ≠ "" → apps ≠ [] →
    (containsSet (pyLower (pyStrip app_name)) apps = [c] →
      ∀ sim2 : String → String → ℚ,
        match_app sim2 app_name apps false = Except.ok c)
    ∧ (2 ≤ (containsSet (pyLower (pyStrip app_name)) apps).length →
        match_app sim app_name apps false
          = fuzzyStage sim (pyLower (pyStrip app_name))
              (containsSet (pyLower (pyStrip app_name)) apps))
    ∧ (containsSet (pyLower (pyStrip app_name)) apps = [] →
        match_app sim app_name apps false
          = fuzzyStage sim (pyLower (pyStrip app_name)) apps) := by
  intro hq hne
  have hq' : pyLower (pyStrip app_name) ≠ "" :=
    fun e => hq ((pyLower_empty_iff _).mp e)
  have hne' : apps.isEmpty = false := isEmpty_false_of_ne_nil hne
  refine ⟨?_, ?_, ?_⟩
  · intro hc sim2
    exact match_app_singleton sim2 app_name apps c hq' hne' hc
  · intro hlen
    have hcs : (containsSet (pyLower (pyStrip app_name)) apps).length ≠ 1 := by
      omega
    rw [match_app_fuzzy sim app_name apps hq' hne' hcs, fuzzyPool,
      if_neg (by
        intro hE
        rw [List.isEmpty_iff] at hE
        rw [hE] at hlen
        simp at hlen)]
  · intro hc
    have hcs : (containsSet (pyLower (pyStrip app_name)) apps).length ≠ 1 := by
      rw [hc]
      simp
    rw [match_app_fuzzy sim app_name apps hq' hne' hcs, fuzzyPool,
      if_pos (by rw [hc]; rfl)]

/-- Witness for C5: a query contained in exactly one alias short-circuits
to that entry for an arbitrary similarity function. -/
theorem claim_C5_witness :
    pyStrip "alph" ≠ "" ∧ ([wAlpha, wBeta] : List AppEntry) ≠ []
    ∧ containsSet (pyLower (pyStrip "alph")) [wAlpha, wBeta] = [wAlpha]
    ∧ match_app simEq "alph" [wAlpha, wBeta] false = Except.ok wAlpha :=
  ⟨by decide, by decide, by decide,
    (claim_C5 simEq "alph" [wAlpha, wBeta] wAlpha (by decide) (by decide)).1
      (by decide) simEq⟩

/-- C6: `normalize_app_key` lowercases its input, collapses every run of
non-alphanumeric characters to a single hyphen, strips leading and trailing
hyphens and maps an empty result to the reserved fallback key (it computes
exactly `normalizeKeySpec`); it is idempotent; and any two raw inputs that
normalize identically map to the same key. -/
theorem claim_C6 :
    (∀ raw, normalize_app_key raw = normalizeKeySpec raw)
    ∧ (∀ raw, normalize_app_key (normalize_app_key raw) = normalize_app_key raw)
    ∧ (∀ s t, normalizeKeySpec s = normalizeKeySpec t →
        normalize_app_key s = normalize_app_key t) :=
  ⟨normKey_eq_spec, normKey_idem,
    fun s t h => by rw [normKey_eq_spec, normKey_eq_spec, h]⟩

/-- Witness for C6: two raw names with the same normalization. -/
theorem claim_C6_witness :
    normalizeKeySpec "Demo App" = normalizeKeySpec "demo--app"
    ∧ normalize_app_key "Demo App" = normalize_app_key "demo--app" :=
  ⟨by decide, claim_C6.2.2 "Demo App" "demo--app" (by decide)⟩

/-- C7: recording a profile and then getting it returns the record;
removing a profile and then getting it returns none; removing an absent key
returns none without raising. -/
theorem claim_C7 :
    (∀ (disk : Disk) (k : String) (rf : List (String × JVal)) (d' : Disk),
      StateStore.record_profile disk k (JVal.obj rf) = some d' →
      StateStore.get_profile d' k = some (some (JVal.obj rf)))
    ∧ (∀ (disk : Disk) (k : String) (rem : Option JVal) (d' : Disk),
      StateStore.remove_profile disk k = some (rem, d') →
      StateStore.get_profile d' k = some none)
    ∧ (∀ (disk : Disk) (k : String) (ps : List (String × JVal)),
      StateStore.profilesOf disk = some ps → jMember ps k = false →
      ∃ d', StateStore.remove_profile disk k = some (none, d')) :=
  ⟨fun _ _ _ _ h => get_after_record h,
   fun _ _ _ _ h => get_after_remove h,
   fun _ _ _ hp h => remove_absent hp h⟩

/-- Witness for C7 on a concrete store. -/
theorem claim_C7_witness :
    StateStore.get_profile (Disk.stored (JVal.obj [("profiles",
        JVal.obj [("k", JVal.obj [("name", JVal.str "x")])])])) "k"
      = some (some (JVal.obj [("name", JVal.str "x")]))
    ∧ StateStore.get_profile (Disk.stored (JVal.obj [("profiles",
        JVal.obj [])])) "k" = some none
    ∧ ∃ d', StateStore.remove_profile Disk.missing "k" = some (none, d') :=
  ⟨claim_C7.1 Disk.missing "k" [("name", JVal.str "x")]
      (Disk.stored (JVal.obj [("profiles",
        JVal.obj [("k", JVal.obj [("name", JVal.str "x")])])])) rfl,
   claim_C7.2.1 (Disk.stored (JVal.obj [("profiles",
        JVal.obj [("k", JVal.obj [("name", JVal.str "x")])])])) "k"
      (some (JVal.obj [("name", JVal.str "x")]))
      (Disk.stored (JVal.obj [("profiles", JVal.obj [])])) rfl,
   claim_C7.2.2 Disk.missing "k" [] rfl rfl⟩

/-- C3 as stated is false: `load` of the object `{"profiles": 3}` returns a
document whose `profiles` key is present but maps to a non-object. -/
theorem claim_C3_counterexample :
    jLookup (StateStore.load (Disk.stored (JVal.obj [("profiles", JVal.num 3)])))
        "profiles" = some (JVal.num 3)
    ∧ (JVal.num 3).isObj = false :=
  ⟨rfl, rfl⟩

/-- C3 amended: `load` always yields a document containing the `profiles`
key; missing, unreadable, corrupt and non-object documents become the fresh
empty document; unknown top-level keys of a well-formed object are
preserved; and a missing `profiles` key is defaulted to an empty object —
but an existing non-object `profiles` value is preserved as-is. -/
theorem claim_C3 :
    (∀ disk, jMember (StateStore.load disk) "profiles" = true)
    ∧ (StateStore.load Disk.missing = StateStore.emptyState
       ∧ StateStore.load Disk.unreadable = StateStore.emptyState
       ∧ StateStore.load Disk.corrupt = StateStore.emptyState
       ∧ ∀ v : JVal, v.isObj = false →
           StateStore.load (Disk.stored v) = StateStore.emptyState)
    ∧ (∀ fields key, key ≠ "profiles" →
        jLookup (StateStore.load (Disk.stored (JVal.obj fields))) key
          = jLookup fields key)
    ∧ (∀ fields, jMember fields "profiles" = false →
        jLookup (StateStore.load (Disk.stored (JVal.obj fields))) "profiles"
          = some (JVal.obj [])) := by
  refine ⟨jMember_load, ⟨rfl, rfl, rfl, ?_⟩, load_preserves_other,
    load_defaults_profiles⟩
  intro v hv
  cases v with
  | obj fields => exact absurd hv (by simp [JVal.isObj])
  | null => rfl
  | bool b => rfl
  | num n => rfl
  | str s => rfl
  | arr xs => rfl

/-- Witness for C3 on a concrete document with an unknown key. -/
theorem claim_C3_witness :
    StateStore.load (Disk.stored (JVal.str "oops")) = StateStore.emptyState
    ∧ jLookup (StateStore.load (Disk.stored
        (JVal.obj [("extra", JVal.num 7)]))) "extra" = some (JVal.num 7)
    ∧ jLookup (StateStore.load (Disk.stored
        (JVal.obj [("extra", JVal.num 7)]))) "profiles" = some (JVal.obj []) :=
  ⟨claim_C3.2.1.2.2.2 (JVal.str "oops") rfl,
   claim_C3.2.2.1 [("extra", JVal.num 7)] "extra" (by decide),
   claim_C3.2.2.2 [("extra", JVal.num 7)] rfl⟩

/-- C8: `find_profile_key` returns none for a query that is empty after
trimming; it first tries the normalized query as a direct key; failing
that, it scans records in iteration order and returns the first key whose
stored name or identity matches the query exactly or contains it as a
substring, and none when nothing matches. -/
theorem claim_C8 (disk : Disk) (query : String)
    (profiles : List (String × JVal)) :
    (pyStrip query = "" → find_profile_key disk query = some none)
    ∧ (pyStrip query ≠ "" → StateStore.all_profiles disk = some profiles →
        jMember profiles (pyLower (pyStrip query)) = true →
        find_profile_key disk query = some (some (pyLower (pyStrip query))))
    ∧ (pyStrip query ≠ "" → StateStore.all_profiles disk = some profiles →
        jMember profiles (pyLower (pyStrip query)) = false → scanWF profiles →
        find_profile_key disk query
          = some (findKeySpec (pyLower (pyStrip query)) profiles)) :=
  find_profile_key_spec disk query profiles

/-- The profiles mapping used by the C8 witness. -/
def wProfiles : List (String × JVal) :=
  [("app-one", JVal.obj [("name", JVal.str "App One"),
    ("desktop_id", JVal.str "one.desktop")])]

/-- Witness for C8: a query that is not a direct key resolves through the
name scan to the first matching record. -/
theorem claim_C8_witness :
    pyStrip "  App One  " ≠ ""
    ∧ StateStore.all_profiles (Disk.stored (JVal.obj
        [("profiles", JVal.obj wProfiles)])) = some wProfiles
    ∧ jMember wProfiles (pyLower (pyStrip "  App One  ")) = false
    ∧ find_profile_key (Disk.stored (JVal.obj
        [("profiles", JVal.obj wProfiles)])) "  App One  "
      = some (findKeySpec (pyLower (pyStrip "  App One  ")) wProfiles)
    ∧ findKeySpec (pyLower (pyStrip "  App One  ")) wProfiles
      = some "app-one" :=
  ⟨by decide, rfl, by decide,
   (claim_C8 (Disk.stored (JVal.obj [("profiles", JVal.obj wProfiles)]))
      "  App One  " wProfiles).2.2 (by decide) rfl (by decide)
      (by
        intro p hp
        simp only [wProfiles, List.mem_singleton] at hp
        subst hp
        exact ⟨rfl, rfl⟩),
   by decide⟩

/-! ### CLI claims -/

theorem gen_branch_step (body : GenResult) (disk : Disk) (app : AppEntry)
    (force : Bool) (profiles : List (String × JVal))
    (hp : StateStore.all_profiles disk = some profiles) :
    gen_branch body disk app force
      = (if (truthyOpt (jLookup profiles (cliAppKey app)) && !force) = true then
          ⟨GenOutcome.skipped, 0, disk, false⟩
        else if kwargsBindOk generate_for_app_kwargs cli_generate_call_kwargs
            = true then body
        else ⟨GenOutcome.failed, 2, disk, false⟩) := by
  rw [gen_branch, hp]

theorem gen_all_step_eq (body : AppEntry → BatchAcc → BatchAcc) (disk : Disk)
    (apps : List AppEntry) (force : Bool) (profiles : List (String × JVal))
    (hp : StateStore.all_profiles disk = some profiles) :
    gen_all body disk apps force
      = some (apps.foldl (gen_all_step body profiles force) ⟨0, 0, 0, disk, false⟩,
          if (apps.foldl (gen_all_step body profiles force)
              ⟨0, 0, 0, disk, false⟩).failed = 0 then 0 else 4) := by
  rw [gen_all, hp]

/-- C1: every generation attempt that is not skipped — in `--gen` and in
`--gen-all` alike — fails with `TypeError` at the `generate_for_app` call
(the `verbose` keyword is not a parameter of the callee) before the
external palette tool is invoked; no `ProfileRecord` is ever written by the
CLI, `--gen` exits with code 2, and every non-skipped application of
`--gen-all` is counted as failed. The result does not depend on the
abstracted post-binding continuations `body`/`body2`, which are never
reached. -/
theorem claim_C1 (body : GenResult) (body2 : AppEntry → BatchAcc → BatchAcc)
    (disk : Disk) (app : AppEntry) (apps : List AppEntry) (force : Bool)
    (profiles : List (String × JVal)) :
    StateStore.all_profiles disk = some profiles →
    ((truthyOpt (jLookup profiles (cliAppKey app)) && !force) = false →
      gen_branch body disk app force
        = ⟨GenOutcome.failed, 2, disk, false⟩)
    ∧ gen_all body2 disk apps force
        = some (⟨0,
            (apps.filter (fun a => !skipTest profiles force a)).length,
            (apps.filter (skipTest profiles force)).length,
            disk, false⟩,
          if (apps.filter (fun a => !skipTest profiles force a)).length = 0
          then 0 else 4) := by
  intro hp
  constructor
  · intro hskip
    rw [gen_branch_step body disk app force profiles hp,
      if_neg (by rw [hskip]; exact Bool.false_ne_true),
      if_neg (by rw [kwargsBindOk_cli_false]; exact Bool.false_ne_true)]
  · rw [gen_all_step_eq body2 disk apps force profiles hp, gen_all_fold]
    simp only [Nat.zero_add]

def gBody : GenResult := ⟨GenOutcome.completed, 0, Disk.missing, true⟩

def gBody2 : AppEntry → BatchAcc → BatchAcc := fun _ acc => acc

def wGenApp : AppEntry := ⟨"k", "K", "", "", "", "", []⟩

/-- Witness for C1 on an empty store: the single app is not skipped, the
`--gen` branch exits 2 without touching the store, and `--gen-all` counts
it as failed. -/
theorem claim_C1_witness :
    StateStore.all_profiles Disk.missing = some []
    ∧ gen_branch gBody Disk.missing wGenApp false
        = ⟨GenOutcome.failed, 2, Disk.missing, false⟩
    ∧ gen_all gBody2 Disk.missing [wGenApp] false
        = some (⟨0, ([wGenApp].filter (fun a => !skipTest [] false a)).length,
            ([wGenApp].filter (skipTest [] false)).length, Disk.missing, false⟩,
          if ([wGenApp].filter (fun a => !skipTest [] false a)).length = 0
          then 0 else 4) :=
  ⟨rfl,
   (claim_C1 gBody gBody2 Disk.missing wGenApp [wGenApp] false [] rfl).1 rfl,
   (claim_C1 gBody gBody2 Disk.missing wGenApp [wGenApp] false [] rfl).2⟩

/-- The store used by the C9 counterexample: the key `"k"` is recorded with
an empty (hence falsy) record. -/
def cDisk : Disk :=
  Disk.stored (JVal.obj [("profiles", JVal.obj [("k", JVal.obj [])])])

theorem cliAppKey_wGenApp : cliAppKey wGenApp = "k" := by
  rw [cliAppKey, normKey_eq_spec]
  decide

/-- C9 fails as stated: the key `"k"` has a record in the store, but
because that record is an empty dict (falsy), the `--gen` skip test
`if existing and not args.force:` does not fire — the outcome is not
SKIPPED (the branch proceeds to the generation attempt and exits 2). -/
theorem claim_C9_counterexample :
    StateStore.all_profiles cDisk = some [("k", JVal.obj [])]
    ∧ jMember [("k", JVal.obj [])] (cliAppKey wGenApp) = true
    ∧ (gen_branch gBody cDisk wGenApp false).outcome = GenOutcome.failed
    ∧ GenOutcome.failed ≠ GenOutcome.skipped := by
  refine ⟨rfl, ?_, ?_, by decide⟩
  · rw [cliAppKey_wGenApp]
    rfl
  · have hstep : gen_branch gBody cDisk wGenApp false
        = (if (truthyOpt (jLookup [("k", JVal.obj [])] (cliAppKey wGenApp))
              && !false) = true then
            ⟨GenOutcome.skipped, 0, cDisk, false⟩
          else if kwargsBindOk generate_for_app_kwargs cli_generate_call_kwargs
              = true then gBody
          else ⟨GenOutcome.failed, 2, cDisk, false⟩) := by
      rw [gen_branch, show StateStore.all_profiles cDisk
        = some [("k", JVal.obj [])] from rfl]
    rw [hstep, cliAppKey_wGenApp]
    rfl

/-- C9 amended: with the force flag unset, `--gen` is a SKIPPED no-op (exit
0, no external invocation, store untouched) whenever the existing record
under the computed key is truthy (a non-empty dict); `--gen-all` skips on
mere key presence in the profiles snapshot, leaving the store unchanged. -/
theorem claim_C9 (body : GenResult) (body2 : AppEntry → BatchAcc → BatchAcc)
    (disk : Disk) (app : AppEntry) (apps : List AppEntry)
    (profiles : List (String × JVal)) :
    StateStore.all_profiles disk = some profiles →
    (truthyOpt (jLookup profiles (cliAppKey app)) = true →
      gen_branch body disk app false = ⟨GenOutcome.skipped, 0, disk, false⟩)
    ∧ ((∀ a ∈ apps, jMember profiles (cliAppKey a) = true) →
        gen_all body2 disk apps false
          = some (⟨0, 0, apps.length, disk, false⟩, 0)) := by
  intro hp
  constructor
  · intro htr
    rw [gen_branch_step body disk app false profiles hp,
      if_pos (by rw [htr]; rfl)]
  · intro hall
    rw [gen_all_step_eq body2 disk apps false profiles hp, gen_all_fold]
    have hskipAll : ∀ a ∈ apps, skipTest profiles false a = true := by
      intro a ha
      rw [skipTest, hall a ha]
      rfl
    have hfilter1 : apps.filter (fun a => !skipTest profiles false a) = [] := by
      rw [List.filter_eq_nil_iff]
      intro a ha
      rw [hskipAll a ha]
      decide
    have hfilter2 : apps.filter (skipTest profiles false) = apps :=
      List.filter_eq_self.mpr hskipAll
    rw [hfilter1, hfilter2]
    simp only [List.length_nil, Nat.zero_add, Nat.add_zero]
    rfl

/-- The store used by the C9 witness: `"k"` is recorded with a non-empty
(truthy) record. -/
def wDisk9 : Disk :=
  Disk.stored (JVal.obj [("profiles",
    JVal.obj [("k", JVal.obj [("name", JVal.str "K")])])])

/-- Witness for C9: a truthy record under the computed key is skipped in
`--gen`, and `--gen-all` skips the one recorded application. -/
theorem claim_C9_witness :
    StateStore.all_profiles wDisk9
      = some [("k", JVal.obj [("name", JVal.str "K")])]
    ∧ gen_branch gBody wDisk9 wGenApp false
      = ⟨GenOutcome.skipped, 0, wDisk9, false⟩
    ∧ gen_all gBody2 wDisk9 [wGenApp] false
      = some (⟨0, 0, 1, wDisk9, false⟩, 0) :=
  ⟨rfl,
   (claim_C9 gBody gBody2 wDisk9 wGenApp [wGenApp]
      [("k", JVal.obj [("name", JVal.str "K")])] rfl).1
     (by rw [cliAppKey_wGenApp]; rfl),
   by
     have h := (claim_C9 gBody gBody2 wDisk9 wGenApp [wGenApp]
        [("k", JVal.obj [("name", JVal.str "K")])] rfl).2
       (by
          intro a ha
          rw [List.mem_singleton] at ha
          subst ha
          rw [cliAppKey_wGenApp]
          rfl)
     simpa using h⟩

/-! ### Removal-safety claims -/

/-- C2 fails as stated: with managed root `["m"]` configured, the recorded
`end4_json_path` `["e", "c.json"]` resolves outside the root, yet the
removal succeeds (exit 0, no SafetyViolation) and deletes that file. -/
theorem claim_C2_counterexample :
    _safe_within ["m"] ["e", "c.json"] = false
    ∧ (ungen_branch [["e", "c.json"]]
        (Disk.stored (JVal.obj [("profiles", JVal.obj [("k", JVal.obj [])])]))
        "k" ⟨some ["m", "app"], some ["e", "c.json"]⟩ false (some ["m"])).1 = 0
    ∧ ["e", "c.json"] ∉ (ungen_branch [["e", "c.json"]]
        (Disk.stored (JVal.obj [("profiles", JVal.obj [("k", JVal.obj [])])]))
        "k" ⟨some ["m", "app"], some ["e", "c.json"]⟩ false (some ["m"])).2.1 := by
  refine ⟨rfl, rfl, ?_⟩
  decide

/-- C2 amended: the containment invariant is enforced only for the managed
output directory — an existing output-directory target escaping a
configured managed root makes the removal fail with SafetyViolation (exit
3) before anything is deleted, with filesystem and profiles store
unchanged; a nonexistent output directory is skipped before the check; and
the externally-mirrored end4 copy is always deleted without any containment
check. -/
theorem claim_C2 :
    (∀ (fs : Fs) (disk : Disk) (key : String) (record : TrackedRecord)
        (dry_run : Bool) (root od : FsPath),
      record.output_dir = some od → od ∈ fs → _safe_within root od = false →
      ungen_branch fs disk key record dry_run (some root) = (3, fs, some disk))
    ∧ (∀ (fs : Fs) (p : FsPath) (dry_run : Bool) (mr : Option FsPath),
        p ∉ fs → ungen_app_path fs p dry_run mr = .ok fs)
    ∧ (∀ (fs : Fs) (e4 : FsPath) (mr : Option FsPath), e4 ∈ fs →
        ∃ fs', _remove_tracked_paths fs ⟨none, some e4⟩ false mr = .ok fs'
          ∧ e4 ∉ fs') := by
  refine ⟨?_, ?_, ?_⟩
  · intro fs disk key record dry_run root od hrec hin hsafe
    have hu : ungen_app_path fs od dry_run (some root)
        = .error .safetyViolation := by
      rw [ungen_app_path, if_pos hin, if_pos hsafe]
    have hrm : _remove_tracked_paths fs record dry_run (some root)
        = .error .safetyViolation := by
      rw [_remove_tracked_paths, hrec]
      dsimp only
      rw [hu]
    rw [ungen_branch, hrm]
  · intro fs p dry_run mr hnotin
    cases mr with
    | none => rw [ungen_app_path, if_neg hnotin]
    | some root => rw [ungen_app_path, if_neg hnotin]
  · intro fs e4 mr hin
    have hsub : ∀ (a : Fs) (p : FsPath) (b : Fs),
        rmdir a p = some b → ∀ x ∈ b, x ∈ a := by
      intro a p b hr x hx
      rw [rmdir] at hr
      split at hr
      · injection hr with hr
        subst hr
        exact (List.mem_filter.mp hx).1
      · cases hr
    have h2 : e4 ∉ unlink fs e4 := by
      intro hmem
      rw [unlink] at hmem
      have hm := List.mem_filter.mp hmem
      simp at hm
    have hstep : _remove_tracked_paths fs ⟨none, some e4⟩ false mr
        = .ok (match rmdir (unlink fs e4) e4.dropLast with
               | some fsp =>
                   (match rmdir fsp e4.dropLast.dropLast with
                    | some fspp => fspp
                    | none => fsp)
               | none => unlink fs e4) := by
      rw [_remove_tracked_paths]
      dsimp only
      rw [if_pos ⟨hin, rfl⟩]
    refine ⟨_, hstep, ?_⟩
    cases h3 : rmdir (unlink fs e4) e4.dropLast with
    | none => exact h2
    | some fsp =>
        dsimp only
        cases h4 : rmdir fsp e4.dropLast.dropLast with
        | none =>
            intro hmem
            exact h2 (hsub _ _ _ h3 _ hmem)
        | some fspp =>
            intro hmem
            exact h2 (hsub _ _ _ h3 _ (hsub _ _ _ h4 _ hmem))

/-- Witness for C2: an existing output directory outside the managed root
aborts the removal with nothing deleted; a nonexistent path is skipped; the
mirrored copy is deleted despite being outside the root. -/
theorem claim_C2_witness :
    ungen_branch [["x", "dir"]] Disk.missing "k"
        ⟨some ["x", "dir"], some ["e", "c.json"]⟩ false (some ["m"])
      = (3, [["x", "dir"]], some Disk.missing)
    ∧ ungen_app_path [] ["x", "dir"] false (some ["m"]) = .ok []
    ∧ ∃ fs', _remove_tracked_paths [["e", "c.json"]] ⟨none, some ["e", "c.json"]⟩
        false (some ["m"]) = .ok fs' ∧ ["e", "c.json"] ∉ fs' :=
  ⟨claim_C2.1 [["x", "dir"]] Disk.missing "k"
      ⟨some ["x", "dir"], some ["e", "c.json"]⟩ false ["m"] ["x", "dir"]
      rfl (by decide) (by decide),
   claim_C2.2.1 [] ["x", "dir"] false (some ["m"]) (by decide),
   claim_C2.2.2 [["e", "c.json"]] ["e", "c.json"] (some ["m"]) (by decide)⟩

/-! ### Desktop-entry parsing claims -/

/-- C10 fails as stated: for the repeated `Keywords` field the parser keeps
the last value seen, not the first non-empty one. -/
theorem claim_C10_counterexample :
    (_parse_desktop_entry "/apps/demo.desktop"
        ["[Desktop Entry]", "Type=Application", "Name=A",
         "Keywords=a;", "Keywords=b;"]).map AppEntry.keywords
      = some ["b"]
    ∧ (some ["b"] : Option (List String)) ≠ some ["a"] :=
  ⟨rfl, by decide⟩

/-- C10 amended: first-non-empty-wins holds for the name, localized name,
generic-name, icon and exec fields (once non-empty they are frozen); the
`Type`, `Hidden`, `NoDisplay` and `Keywords` fields take the last value
seen; and a file is rejected exactly when no name was found, the entry type
does not lower-case to "application", or a hidden/no-display flag is set. -/
theorem claim_C10 :
    (∀ (st : ParseSt) (line : String), st.name ≠ "" →
      (processLine st line).name = st.name)
    ∧ (∀ (st : ParseSt) (line : String), st.generic_name ≠ "" →
        (processLine st line).generic_name = st.generic_name)
    ∧ (∀ (st : ParseSt) (line : String), st.icon ≠ "" →
        (processLine st line).icon = st.icon)
    ∧ (∀ (st : ParseSt) (line : String), st.exec_cmd ≠ "" →
        (processLine st line).exec_cmd = st.exec_cmd)
    ∧ (∀ ks : List String,
        (processLine ⟨"N", "", "", "", "Application", false, false, ks, true⟩
          "Keywords=b;").keywords = ["b"])
    ∧ (∀ t : String,
        (processLine ⟨"N", "", "", "", t, false, false, [], true⟩
          "Type=Link").app_type = "Link")
    ∧ (∀ (path : String) (lines : List String),
        _parse_desktop_entry path lines = none ↔
          ((lines.foldl processLine initParseSt).name = ""
            ∨ pyLower (lines.foldl processLine initParseSt).app_type
                ≠ "application"
            ∨ (lines.foldl processLine initParseSt).hidden = true
            ∨ (lines.foldl processLine initParseSt).no_display = true)) := by
  refine ⟨?_, ?_, ?_, ?_, ?_, ?_, ?_⟩
  · intro st line hne
    rw [processLine_eqG]
    rcases (processLineG_fields st (pyStrip line)
        (pyStrip (splitKV (pyStrip line).data).1)
        (pyStrip (splitKV (pyStrip line).data).2)).1 with h | h
    · exact h
    · exact absurd h hne
  · intro st line hne
    rw [processLine_eqG]
    rcases (processLineG_fields st (pyStrip line)
        (pyStrip (splitKV (pyStrip line).data).1)
        (pyStrip (splitKV (pyStrip line).data).2)).2.1 with h | h
    · exact h
    · exact absurd h hne
  · intro st line hne
    rw [processLine_eqG]
    rcases (processLineG_fields st (pyStrip line)
        (pyStrip (splitKV (pyStrip line).data).1)
        (pyStrip (splitKV (pyStrip line).data).2)).2.2.1 with h | h
    · exact h
    · exact absurd h hne
  · intro st line hne
    rw [processLine_eqG]
    rcases (processLineG_fields st (pyStrip line)
        (pyStrip (splitKV (pyStrip line).data).1)
        (pyStrip (splitKV (pyStrip line).data).2)).2.2.2 with h | h
    · exact h
    · exact absurd h hne
  · intro ks
    rfl
  · intro t
    rfl
  · intro path lines
    rw [_parse_desktop_entry]
    constructor
    · intro h
      split_ifs at h with h1 h2 h3
      · exact Or.inl h1
      · exact Or.inr (Or.inl h2)
      · rcases h3 with h3 | h3
        · exact Or.inr (Or.inr (Or.inl h3))
        · exact Or.inr (Or.inr (Or.inr h3))
    · intro h
      rcases h with h | h | h | h
      · rw [if_pos h]
      · by_cases h1 : (lines.foldl processLine initParseSt).name = ""
        · rw [if_pos h1]
        · rw [if_neg h1, if_pos h]
      · by_cases h1 : (lines.foldl processLine initParseSt).name = ""
        · rw [if_pos h1]
        · by_cases h2 : pyLower (lines.foldl processLine initParseSt).app_type
              ≠ "application"
          · rw [if_neg h1, if_pos h2]
          · rw [if_neg h1, if_neg h2, if_pos (Or.inl h)]
      · by_cases h1 : (lines.foldl processLine initParseSt).name = ""
        · rw [if_pos h1]
        · by_cases h2 : pyLower (lines.foldl processLine initParseSt).app_type
              ≠ "application"
          · rw [if_neg h1, if_pos h2]
          · rw [if_neg h1, if_neg h2, if_pos (Or.inr h)]

/-- Witness for C10: a name set by a localized variant freezes against a
later plain `Name` line, and the rejection test on a concrete accepted
file. -/
theorem claim_C10_witness :
    (processLine ⟨"First", "", "", "", "Application", false, false, [], true⟩
        "Name=Second").name = "First"
    ∧ ((_parse_desktop_entry "/apps/a.desktop"
          ["[Desktop Entry]", "Type=Application", "Name=A"] = none) ↔
        ((["[Desktop Entry]", "Type=Application",
            "Name=A"].foldl processLine initParseSt).name = ""
          ∨ pyLower (["[Desktop Entry]", "Type=Application",
              "Name=A"].foldl processLine initParseSt).app_type ≠ "application"
          ∨ (["[Desktop Entry]", "Type=Application",
              "Name=A"].foldl processLine initParseSt).hidden = true
          ∨ (["[Desktop Entry]", "Type=Application",
              "Name=A"].foldl processLine initParseSt).no_display = true)) :=
  ⟨claim_C10.1 ⟨"First", "", "", "", "Application", false, false, [], true⟩
      "Name=Second" (by decide),
   claim_C10.2.2.2.2.2.2 "/apps/a.desktop"
      ["[Desktop Entry]", "Type=Application", "Name=A"]⟩

end Matugenium
